import Mathlib

/-!
Shallow embedding of the FlowGraph graph-layout subsystem
(`src/include/flowgraph_layout/`: `LayoutTypes.hpp`, `Layout.hpp`,
`GridLayout.hpp`, `HierarchicalLayout.hpp`, `ForceDirectedLayout.hpp`)
and proofs about the frozen claims C1..C10.

Modelling conventions:
* C++ `double` is modelled by `ℚ`; the arithmetic used by the layout code is
  `+ - * / min max` and comparisons, which the code applies to exactly
  representable quantities in all the claims treated here.  `std::sqrt`,
  `std::cos`, `std::sin` and `M_PI` have no exact `ℚ` counterpart, so the
  definitions that use them are parametrised by abstract functions
  (`sq`, `cosQ`, `sinQ`, `piQ`); the C++ versions are deterministic
  functions of their argument, so every instantiation argument below is one
  fixed function.
* `NodeId` (`size_t`) is modelled by `ℕ`; ids are only compared for equality.
  The one place where `size_t` wrap-around is observable is the in-degree
  decrement in `HierarchicalLayout::assignLayers`, modelled by `decWrap`
  with an explicit `2 ^ 64` wrap.
* `std::unordered_map` iteration order is unspecified in C++; the spec notes
  (§9) that placement depends on it.  The model fixes a definite order: a
  `Graph` keeps its nodes as a list in container iteration order, and every
  map iteration in the code is modelled as iterating that list.  Keys of an
  `unordered_map` are unique, so the node list of a well-formed graph has
  pairwise distinct ids (`idsNodup`); updates by id are modelled as updating
  every matching list entry, which coincides with the C++ map update on
  well-formed graphs.
* The mutable RNG of `ForceDirectedLayout` is modelled by an abstract draw
  stream `rnd : ℕ → ℚ` together with a counter threaded through the
  computation: draw `k` of a run yields `rnd k`.
-/

namespace FGL

/-- 2D point over ℚ, modelling `Point<double>` of LayoutTypes.hpp. -/
structure Pt where
  x : ℚ
  y : ℚ
deriving DecidableEq, Repr

/-- Directed edge, modelling `Edge` (`from`/`to` are `src`/`dst` here since
`from` is reserved in Lean). -/
structure Edge where
  src : ℕ
  dst : ℕ
deriving DecidableEq, Repr

/-- Node: id, position, size; default size is (50, 30) as in `Node<T>`. -/
structure Node where
  id : ℕ
  position : Pt
  size : Pt
deriving DecidableEq, Repr

/-- A node with the `Node(NodeId)` constructor defaults: position (0,0),
size (50,30). -/
def mkNode (i : ℕ) : Node := ⟨i, ⟨0, 0⟩, ⟨50, 30⟩⟩

instance : Inhabited Node := ⟨mkNode 0⟩

/-- Graph: node container (in iteration order) plus edge insertion sequence,
modelling `Graph<double>`.  The derived adjacency list is not modelled: no
layout algorithm under verification reads it (they all scan `getEdges()`). -/
structure Graph where
  nodes : List Node
  edges : List Edge
deriving DecidableEq, Repr

/-- Ids of the nodes in container iteration order. -/
def Graph.ids (g : Graph) : List ℕ := g.nodes.map Node.id

/-- Well-formedness of the node container: `unordered_map` keys are unique. -/
def Graph.idsNodup (g : Graph) : Prop := g.ids.Nodup

/-- All edge endpoints name existing nodes. -/
def Graph.endpointsExist (g : Graph) : Prop :=
  ∀ e ∈ g.edges, e.src ∈ g.ids ∧ e.dst ∈ g.ids

/-- Model of `Graph::getNode`: first node with the given id (unique in a
well-formed graph), `none` when absent. -/
def getNode? (g : Graph) (i : ℕ) : Option Node :=
  g.nodes.find? (fun nd => nd.id = i)

/-- Model of `Graph::updateNodePosition`: set the position of the node with
the given id (every matching entry; ids are unique in a well-formed graph). -/
def updateNodePosition (g : Graph) (i : ℕ) (p : Pt) : Graph :=
  { g with nodes := g.nodes.map (fun nd => if nd.id = i then { nd with position := p } else nd) }

/-- Model of `LayoutConfig` (all-`double` tunables plus one flag). -/
structure LayoutConfig where
  nodeSpacing : ℚ := 80
  layerSpacing : ℚ := 100
  iterations : ℚ := 100
  convergenceThreshold : ℚ := 1
  preserveAspectRatio : Bool := true
  marginX : ℚ := 50
  marginY : ℚ := 50
deriving DecidableEq, Repr

/-- The default-constructed `LayoutConfig`. -/
def defaultConfig : LayoutConfig := {}

/-- Model of `LayoutResult`. -/
structure LayoutResult where
  success : Bool := false
  iterations : ℕ := 0
  finalEnergy : ℚ := 0
  errorMessage : String := ""
  boundingBox : Pt := ⟨0, 0⟩
deriving DecidableEq, Repr

/-- The default-constructed `LayoutResult`. -/
def defaultResult : LayoutResult := {}

/-- Model of `static_cast<size_t>` applied to a nonnegative `double`
(truncation toward zero; a negative argument is UB in C++ and mapped to 0). -/
def toSizeT (q : ℚ) : ℕ := q.floor.toNat

/-! ### Utility functions (`Layout.hpp`, namespace `utils`) -/

/-- Fold of `min` over a list seeded from its head; the C++ code seeds the
fold with `std::numeric_limits<T>::max()`, which on a nonempty list yields
the same value. -/
def qminL : List ℚ → ℚ
  | [] => 0
  | a :: r => r.foldl min a

/-- Fold of `max` over a list seeded from its head (C++ seeds with
`lowest()`; equal on nonempty lists). -/
def qmaxL : List ℚ → ℚ
  | [] => 0
  | a :: r => r.foldl max a

/-- Model of `utils::calculateBoundingBox`: (maxX - minX, maxY - minY) over
all node rectangles, (0,0) for the empty graph. -/
def calculateBoundingBox (g : Graph) : Pt :=
  if g.nodes = [] then ⟨0, 0⟩
  else
    ⟨qmaxL (g.nodes.map (fun nd => nd.position.x + nd.size.x)) -
       qminL (g.nodes.map (fun nd => nd.position.x)),
     qmaxL (g.nodes.map (fun nd => nd.position.y + nd.size.y)) -
       qminL (g.nodes.map (fun nd => nd.position.y))⟩

/-- Model of `utils::scaleToFit`: uniform scale of positions (sizes are not
rescaled), then translate by the margin. -/
def scaleToFit (g : Graph) (targetWidth targetHeight margin : ℚ) : Graph :=
  if g.nodes = [] then g
  else
    let bounds := calculateBoundingBox g
    if bounds.x ≤ 0 ∨ bounds.y ≤ 0 then g
    else
      let availableWidth := targetWidth - 2 * margin
      let availableHeight := targetHeight - 2 * margin
      let scale := min (availableWidth / bounds.x) (availableHeight / bounds.y)
      { g with nodes := g.nodes.map (fun nd =>
          { nd with position := ⟨nd.position.x * scale + margin, nd.position.y * scale + margin⟩ }) }

/-- Model of `utils::nodesOverlap`: axis-aligned rectangle intersection with
padding. -/
def nodesOverlap (a b : Node) (padding : ℚ) : Bool :=
  ¬(a.position.x + a.size.x + padding ≤ b.position.x ∨
    b.position.x + b.size.x + padding ≤ a.position.x ∨
    a.position.y + a.size.y + padding ≤ b.position.y ∨
    b.position.y + b.size.y + padding ≤ a.position.y)

/-- Pairwise scan of `utils::countOverlaps` (`it2 = next(it1)` double loop). -/
def countOverlapsAux (padding : ℚ) : List Node → ℕ
  | [] => 0
  | a :: rest => rest.countP (fun b => nodesOverlap a b padding) + countOverlapsAux padding rest

/-- Model of `utils::countOverlaps`. -/
def countOverlaps (g : Graph) (padding : ℚ) : ℕ :=
  countOverlapsAux padding g.nodes

/-! ### GridLayout (`GridLayout.hpp`) -/

/-- Model of `GridLayout::findMaxNodeWidth`: max node width, 50 when the
maximum is not positive. -/
def findMaxNodeWidth (g : Graph) : ℚ :=
  let m := g.nodes.foldl (fun acc nd => max acc nd.size.x) 0
  if 0 < m then m else 50

/-- Model of `GridLayout::findMaxNodeHeight`: max node height, default 30. -/
def findMaxNodeHeight (g : Graph) : ℚ :=
  let m := g.nodes.foldl (fun acc nd => max acc nd.size.y) 0
  if 0 < m then m else 30

/-- Model of `ceil(sqrt(n))` on `size_t` node counts
(`static_cast<size_t>(std::ceil(std::sqrt(n)))`): the least `c` with
`n ≤ c * c`.  For `n ≥ 1` this is `Nat.sqrt (n-1) + 1`; `double` is exact on
this range. -/
def gridCols (n : ℕ) : ℕ := Nat.sqrt (n - 1) + 1

/-- Model of `ceil(n / cols)` on naturals (`std::ceil` of the exact `double`
quotient). -/
def gridRows (n c : ℕ) : ℕ := (n + c - 1) / c

/-- Grid cell position loop of `GridLayout::apply`: node at container index
`i` goes to cell `(i / cols, i % cols)`, centered within its cell. -/
def placeGrid (cfg : LayoutConfig) (cols : ℕ) (cw ch : ℚ) : ℕ → List Node → List Node
  | _, [] => []
  | i, nd :: rest =>
      { nd with position :=
          ⟨cfg.marginX + (i % cols : ℕ) * cw + (cw - nd.size.x) / 2,
           cfg.marginY + (i / cols : ℕ) * ch + (ch - nd.size.y) / 2⟩ } ::
        placeGrid cfg cols cw ch (i + 1) rest

/-- Model of `GridLayout::apply`. -/
def gridApply (g : Graph) (cfg : LayoutConfig) : LayoutResult × Graph :=
  if g.nodes.length = 0 then ({ defaultResult with success := true }, g)
  else
    let n := g.nodes.length
    let cols := gridCols n
    let rows := gridRows n cols
    let cw := max (findMaxNodeWidth g + cfg.nodeSpacing) 80
    let ch := max (findMaxNodeHeight g + cfg.nodeSpacing) 60
    ({ defaultResult with
        success := true
        boundingBox := ⟨cols * cw + 2 * cfg.marginX, rows * ch + 2 * cfg.marginY⟩ },
     { g with nodes := placeGrid cfg cols cw ch 0 g.nodes })

/-! ### CircularLayout (`GridLayout.hpp`, second class)

`CircularLayout::apply` uses `M_PI`, `std::cos`, `std::sin`; they are
modelled by the parameters `piQ`, `cosQ`, `sinQ` (fixed deterministic
functions in C++). -/

/-- Circle placement loop of `CircularLayout::apply` for `n > 1`: node at
container index `i` is centered on angle `2π·i/n`. -/
def placeCircle (cosQ sinQ : ℚ → ℚ) (piQ cx cy radius : ℚ) (n : ℕ) :
    ℕ → List Node → List Node
  | _, [] => []
  | i, nd :: rest =>
      let angle := 2 * piQ * (i : ℚ) / (n : ℚ)
      let x := cx + radius * cosQ angle
      let y := cy + radius * sinQ angle
      { nd with position := ⟨x - nd.size.x / 2, y - nd.size.y / 2⟩ } ::
        placeCircle cosQ sinQ piQ cx cy radius n (i + 1) rest

/-- Model of `CircularLayout::apply`. -/
def circularApply (cosQ sinQ : ℚ → ℚ) (piQ : ℚ) (g : Graph) (cfg : LayoutConfig) :
    LayoutResult × Graph :=
  if g.nodes.length = 0 then ({ defaultResult with success := true }, g)
  else if g.nodes.length = 1 then
    -- single node placed at a fixed offset from the margin
    let firstId := (g.nodes.headI).id
    let g2 := updateNodePosition g firstId ⟨cfg.marginX + 100, cfg.marginY + 100⟩
    ({ defaultResult with
        success := true
        boundingBox := ⟨200 + 2 * cfg.marginX, 200 + 2 * cfg.marginY⟩ }, g2)
  else
    let n := g.nodes.length
    let circumference := (n : ℚ) * cfg.nodeSpacing
    let radius := max (circumference / (2 * piQ)) 100
    let cx := cfg.marginX + radius
    let cy := cfg.marginY + radius
    let diameter := 2 * radius
    ({ defaultResult with
        success := true
        boundingBox := ⟨diameter + 2 * cfg.marginX, diameter + 2 * cfg.marginY⟩ },
     { g with nodes := placeCircle cosQ sinQ piQ cx cy radius n 0 g.nodes })

/-! ### Layout facade and registry (`Layout.hpp`)

`LayoutRegistry` keeps a static name-to-factory map populated by
`registerAlgorithm` calls (the repository itself contains no such call; the
registry contents are whatever callers registered).  The registry state is
modelled as an association list of names and algorithm tags, in insertion
order. -/

/-- Tags for the concrete algorithm types a factory can produce. -/
inductive AlgKind where
  | grid
  | circular
  | forceDirected
  | hierarchical
deriving DecidableEq, Repr

/-- A registry state: the entries registered so far, in insertion order. -/
abbrev RegistryState : Type := List (String × AlgKind)

/-- Model of `LayoutRegistry::create`: look the name up, `none` (null) for an
unknown name; never throws. -/
def registryCreate (reg : RegistryState) (name : String) : Option AlgKind :=
  (List.find? (fun p => p.1 = name) reg).map Prod.snd

/-- Model of the `Layout(const std::string&)` constructor: delegates to
`LayoutRegistry::create` and throws on a null result (`Except.error` carries
the exception message). -/
def layoutNew (reg : RegistryState) (name : String) : Except String AlgKind :=
  match registryCreate reg name with
  | some a => Except.ok a
  | none => Except.error ("Unknown layout algorithm: " ++ name)

/-! ### Basic lemmas about the grid placement loop -/

theorem placeGrid_length (cfg : LayoutConfig) (cols : ℕ) (cw ch : ℚ) (i : ℕ)
    (l : List Node) : (placeGrid cfg cols cw ch i l).length = l.length := by
  induction l generalizing i with
  | nil => rfl
  | cons a r ih => simp [placeGrid, ih]

theorem placeGrid_getElem? (cfg : LayoutConfig) (cols : ℕ) (cw ch : ℚ) (i k : ℕ)
    (l : List Node) :
    (placeGrid cfg cols cw ch i l)[k]? = (l[k]?).map (fun nd =>
      { nd with position :=
          ⟨cfg.marginX + ((i + k) % cols : ℕ) * cw + (cw - nd.size.x) / 2,
           cfg.marginY + ((i + k) / cols : ℕ) * ch + (ch - nd.size.y) / 2⟩ }) := by
  induction l generalizing i k with
  | nil => simp [placeGrid]
  | cons a r ih =>
      cases k with
      | zero => simp [placeGrid]
      | succ k =>
          have h := ih (i + 1) k
          simp only [placeGrid, List.getElem?_cons_succ]
          rw [h]
          have e : i + 1 + k = i + (k + 1) := by omega
          rw [e]

theorem placeGrid_map_size (cfg : LayoutConfig) (cols : ℕ) (cw ch : ℚ) (i : ℕ)
    (l : List Node) :
    (placeGrid cfg cols cw ch i l).map Node.size = l.map Node.size := by
  induction l generalizing i with
  | nil => rfl
  | cons a r ih => simp [placeGrid, ih]

theorem placeGrid_idem (cfg : LayoutConfig) (cols : ℕ) (cw ch : ℚ) (i : ℕ)
    (l : List Node) :
    placeGrid cfg cols cw ch i (placeGrid cfg cols cw ch i l) =
      placeGrid cfg cols cw ch i l := by
  induction l generalizing i with
  | nil => rfl
  | cons a r ih => simp [placeGrid, ih]

theorem foldl_max_size_x_congr (l₁ l₂ : List Node)
    (h : l₁.map Node.size = l₂.map Node.size) (acc : ℚ) :
    l₁.foldl (fun a nd => max a nd.size.x) acc =
      l₂.foldl (fun a nd => max a nd.size.x) acc := by
  induction l₁ generalizing l₂ acc with
  | nil => cases l₂ with
      | nil => rfl
      | cons b r => simp at h
  | cons a r ih =>
      cases l₂ with
      | nil => simp at h
      | cons b s =>
          simp only [List.map_cons, List.cons.injEq] at h
          simp only [List.foldl_cons, h.1]
          exact ih s h.2 _

theorem foldl_max_size_y_congr (l₁ l₂ : List Node)
    (h : l₁.map Node.size = l₂.map Node.size) (acc : ℚ) :
    l₁.foldl (fun a nd => max a nd.size.y) acc =
      l₂.foldl (fun a nd => max a nd.size.y) acc := by
  induction l₁ generalizing l₂ acc with
  | nil => cases l₂ with
      | nil => rfl
      | cons b r => simp at h
  | cons a r ih =>
      cases l₂ with
      | nil => simp at h
      | cons b s =>
          simp only [List.map_cons, List.cons.injEq] at h
          simp only [List.foldl_cons, h.1]
          exact ih s h.2 _

theorem findMaxNodeWidth_congr (g₁ g₂ : Graph)
    (h : g₁.nodes.map Node.size = g₂.nodes.map Node.size) :
    findMaxNodeWidth g₁ = findMaxNodeWidth g₂ := by
  unfold findMaxNodeWidth
  rw [foldl_max_size_x_congr g₁.nodes g₂.nodes h]

theorem findMaxNodeHeight_congr (g₁ g₂ : Graph)
    (h : g₁.nodes.map Node.size = g₂.nodes.map Node.size) :
    findMaxNodeHeight g₁ = findMaxNodeHeight g₂ := by
  unfold findMaxNodeHeight
  rw [foldl_max_size_y_congr g₁.nodes g₂.nodes h]

theorem countOverlapsAux_eq_zero (p : ℚ) (l : List Node)
    (h : List.Pairwise (fun a b => nodesOverlap a b p = false) l) :
    countOverlapsAux p l = 0 := by
  induction l with
  | nil => rfl
  | cons a r ih =>
      rcases List.pairwise_cons.mp h with ⟨ha, hr⟩
      simp only [countOverlapsAux, ih hr, Nat.add_zero]
      rw [List.countP_eq_zero]
      intro b hb
      simp [ha b hb]

theorem foldl_max_all_fifty (s : List Node) (acc : ℚ)
    (hsz : ∀ nd ∈ s, nd.size.x = 50) (hne : s ≠ []) :
    s.foldl (fun a nd => max a nd.size.x) acc = max acc 50 := by
  induction s generalizing acc with
  | nil => exact absurd rfl hne
  | cons b t ih =>
      have hb : b.size.x = 50 := hsz b (List.mem_cons_self b t)
      rcases eq_or_ne t [] with ht | ht
      · subst ht; simp [hb]
      · simp only [List.foldl_cons, hb]
        rw [ih (max acc 50) (fun nd hnd => hsz nd (List.mem_cons_of_mem b hnd)) ht]
        rw [max_assoc, max_self]

theorem foldl_max_all_thirty (s : List Node) (acc : ℚ)
    (hsz : ∀ nd ∈ s, nd.size.y = 30) (hne : s ≠ []) :
    s.foldl (fun a nd => max a nd.size.y) acc = max acc 30 := by
  induction s generalizing acc with
  | nil => exact absurd rfl hne
  | cons b t ih =>
      have hb : b.size.y = 30 := hsz b (List.mem_cons_self b t)
      rcases eq_or_ne t [] with ht | ht
      · subst ht; simp [hb]
      · simp only [List.foldl_cons, hb]
        rw [ih (max acc 30) (fun nd hnd => hsz nd (List.mem_cons_of_mem b hnd)) ht]
        rw [max_assoc, max_self]

theorem findMaxNodeWidth_default (g : Graph) (hne : g.nodes ≠ [])
    (hsz : ∀ nd ∈ g.nodes, nd.size = ⟨50, 30⟩) : findMaxNodeWidth g = 50 := by
  unfold findMaxNodeWidth
  rw [foldl_max_all_fifty g.nodes 0 (fun nd hnd => by rw [hsz nd hnd]) hne]
  norm_num

theorem findMaxNodeHeight_default (g : Graph) (hne : g.nodes ≠ [])
    (hsz : ∀ nd ∈ g.nodes, nd.size = ⟨50, 30⟩) : findMaxNodeHeight g = 30 := by
  unfold findMaxNodeHeight
  rw [foldl_max_all_thirty g.nodes 0 (fun nd hnd => by rw [hsz nd hnd]) hne]
  norm_num

theorem placeGrid_pairwise_no_overlap (cfg : LayoutConfig) (cols : ℕ)
    (l : List Node) (hsz : ∀ nd ∈ l, nd.size = ⟨50, 30⟩) :
    List.Pairwise (fun a b => nodesOverlap a b 0 = false)
      (placeGrid cfg cols 130 110 0 l) := by
  rw [List.pairwise_iff_getElem]
  intro i j hi hj hij
  have hi' : i < l.length := by rwa [placeGrid_length] at hi
  have hj' : j < l.length := by rwa [placeGrid_length] at hj
  have ei : (placeGrid cfg cols 130 110 0 l)[i] =
      { l[i] with position :=
          ⟨cfg.marginX + ((0 + i) % cols : ℕ) * 130 + (130 - (l[i]).size.x) / 2,
           cfg.marginY + ((0 + i) / cols : ℕ) * 110 + (110 - (l[i]).size.y) / 2⟩ } := by
    have h1 := placeGrid_getElem? cfg cols 130 110 0 i l
    rw [List.getElem?_eq_getElem hi, List.getElem?_eq_getElem hi'] at h1
    simpa using h1
  have ej : (placeGrid cfg cols 130 110 0 l)[j] =
      { l[j] with position :=
          ⟨cfg.marginX + ((0 + j) % cols : ℕ) * 130 + (130 - (l[j]).size.x) / 2,
           cfg.marginY + ((0 + j) / cols : ℕ) * 110 + (110 - (l[j]).size.y) / 2⟩ } := by
    have h1 := placeGrid_getElem? cfg cols 130 110 0 j l
    rw [List.getElem?_eq_getElem hj, List.getElem?_eq_getElem hj'] at h1
    simpa using h1
  have hsi : (l[i]).size = ⟨50, 30⟩ := hsz _ (List.getElem_mem hi')
  have hsj : (l[j]).size = ⟨50, 30⟩ := hsz _ (List.getElem_mem hj')
  rw [ei, ej]
  simp only [nodesOverlap, hsi, hsj, Nat.zero_add, decide_eq_false_iff_not, not_not]
  have hdm : i % cols ≠ j % cols ∨ i / cols ≠ j / cols := by
    by_contra hc
    push_neg at hc
    have : cols * (i / cols) + i % cols = cols * (j / cols) + j % cols := by
      rw [hc.1, hc.2]
    rw [Nat.div_add_mod, Nat.div_add_mod] at this
    omega
  rcases hdm with hm | hd
  · rcases Nat.lt_or_ge (i % cols) (j % cols) with h | h
    · left
      have hc : ((i % cols : ℕ) : ℚ) + 1 ≤ ((j % cols : ℕ) : ℚ) := by
        exact_mod_cast Nat.succ_le_of_lt h
      show cfg.marginX + _ * 130 + (130 - (50:ℚ)) / 2 + 50 + 0 ≤ _
      push_cast at hc
      nlinarith [hc]
    · have h' : j % cols < i % cols := lt_of_le_of_ne h (fun e => hm e.symm)
      right; left
      have hc : ((j % cols : ℕ) : ℚ) + 1 ≤ ((i % cols : ℕ) : ℚ) := by
        exact_mod_cast Nat.succ_le_of_lt h'
      push_cast at hc
      nlinarith [hc]
  · rcases Nat.lt_or_ge (i / cols) (j / cols) with h | h
    · right; right; left
      have hc : ((i / cols : ℕ) : ℚ) + 1 ≤ ((j / cols : ℕ) : ℚ) := by
        exact_mod_cast Nat.succ_le_of_lt h
      push_cast at hc
      nlinarith [hc]
    · have h' : j / cols < i / cols := lt_of_le_of_ne h (fun e => hd e.symm)
      right; right; right
      have hc : ((j / cols : ℕ) : ℚ) + 1 ≤ ((i / cols : ℕ) : ℚ) := by
        exact_mod_cast Nat.succ_le_of_lt h'
      push_cast at hc
      nlinarith [hc]

/-- C5: GridLayout with default config and default node sizes yields a layout
with zero pairwise overlaps, for any node count up to 1000. -/
theorem grid_default_no_overlaps (g : Graph)
    (hsz : ∀ nd ∈ g.nodes, nd.size = ⟨50, 30⟩)
    (hn : g.nodes.length ≤ 1000) :
    countOverlaps (gridApply g defaultConfig).2 0 = 0 := by
  rcases eq_or_ne g.nodes.length 0 with h0 | h0
  · have hnil : g.nodes = [] := List.length_eq_zero.mp h0
    simp [gridApply, h0, countOverlaps, hnil, countOverlapsAux]
  · have hne : g.nodes ≠ [] := fun h => h0 (by rw [h]; rfl)
    unfold gridApply
    rw [if_neg h0]
    simp only [countOverlaps]
    have hcw : max (findMaxNodeWidth g + defaultConfig.nodeSpacing) 80 = 130 := by
      rw [findMaxNodeWidth_default g hne hsz]
      show max ((50:ℚ) + 80) 80 = 130
      norm_num
    have hch : max (findMaxNodeHeight g + defaultConfig.nodeSpacing) 60 = 110 := by
      rw [findMaxNodeHeight_default g hne hsz]
      show max ((30:ℚ) + 80) 60 = 110
      norm_num
    rw [hcw, hch]
    exact countOverlapsAux_eq_zero 0 _
      (placeGrid_pairwise_no_overlap defaultConfig (gridCols g.nodes.length) g.nodes hsz)

/-- Concrete instantiation of `grid_default_no_overlaps` at a 3-node graph. -/
theorem grid_default_no_overlaps_witness :
    countOverlaps (gridApply ⟨[mkNode 1, mkNode 2, mkNode 3], []⟩ defaultConfig).2 0 = 0 :=
  grid_default_no_overlaps ⟨[mkNode 1, mkNode 2, mkNode 3], []⟩
    (by intro nd hnd; fin_cases hnd <;> rfl) (by norm_num)

/-! ### Determinism of Grid and Circular layout -/

theorem gridApply_snd (g : Graph) (cfg : LayoutConfig) (h0 : g.nodes.length ≠ 0) :
    (gridApply g cfg).2 =
      Graph.mk (placeGrid cfg (gridCols g.nodes.length)
          (max (findMaxNodeWidth g + cfg.nodeSpacing) 80)
          (max (findMaxNodeHeight g + cfg.nodeSpacing) 60) 0 g.nodes) g.edges := by
  unfold gridApply
  rw [if_neg h0]

theorem gridApply_deterministic (g : Graph) (cfg : LayoutConfig) :
    (gridApply (gridApply g cfg).2 cfg).2 = (gridApply g cfg).2 := by
  obtain ⟨ns, es⟩ := g
  rcases eq_or_ne ns.length 0 with h0 | h0
  · simp [gridApply, h0]
  · rw [gridApply_snd ⟨ns, es⟩ cfg h0]
    have hlen : (placeGrid cfg (gridCols ns.length)
        (max (findMaxNodeWidth ⟨ns, es⟩ + cfg.nodeSpacing) 80)
        (max (findMaxNodeHeight ⟨ns, es⟩ + cfg.nodeSpacing) 60) 0 ns).length = ns.length :=
      placeGrid_length _ _ _ _ _ _
    have h0' : (placeGrid cfg (gridCols ns.length)
        (max (findMaxNodeWidth ⟨ns, es⟩ + cfg.nodeSpacing) 80)
        (max (findMaxNodeHeight ⟨ns, es⟩ + cfg.nodeSpacing) 60) 0 ns).length ≠ 0 := by
      rw [hlen]; exact h0
    rw [gridApply_snd _ cfg h0']
    have hsz : (placeGrid cfg (gridCols ns.length)
        (max (findMaxNodeWidth ⟨ns, es⟩ + cfg.nodeSpacing) 80)
        (max (findMaxNodeHeight ⟨ns, es⟩ + cfg.nodeSpacing) 60) 0 ns).map Node.size =
        ns.map Node.size := placeGrid_map_size _ _ _ _ _ _
    have hw := findMaxNodeWidth_congr
      ⟨placeGrid cfg (gridCols ns.length)
        (max (findMaxNodeWidth ⟨ns, es⟩ + cfg.nodeSpacing) 80)
        (max (findMaxNodeHeight ⟨ns, es⟩ + cfg.nodeSpacing) 60) 0 ns, es⟩ ⟨ns, es⟩ hsz
    have hh := findMaxNodeHeight_congr
      ⟨placeGrid cfg (gridCols ns.length)
        (max (findMaxNodeWidth ⟨ns, es⟩ + cfg.nodeSpacing) 80)
        (max (findMaxNodeHeight ⟨ns, es⟩ + cfg.nodeSpacing) 60) 0 ns, es⟩ ⟨ns, es⟩ hsz
    simp only at hw hh ⊢
    rw [hlen, hw, hh]
    simp only [Graph.mk.injEq, and_true]
    exact placeGrid_idem _ _ _ _ _ _

theorem placeCircle_length (cosQ sinQ : ℚ → ℚ) (piQ cx cy radius : ℚ) (n i : ℕ)
    (l : List Node) :
    (placeCircle cosQ sinQ piQ cx cy radius n i l).length = l.length := by
  induction l generalizing i with
  | nil => rfl
  | cons a r ih => simp [placeCircle, ih]

theorem placeCircle_map_size (cosQ sinQ : ℚ → ℚ) (piQ cx cy radius : ℚ) (n i : ℕ)
    (l : List Node) :
    (placeCircle cosQ sinQ piQ cx cy radius n i l).map Node.size = l.map Node.size := by
  induction l generalizing i with
  | nil => rfl
  | cons a r ih => simp [placeCircle, ih]

theorem placeCircle_idem (cosQ sinQ : ℚ → ℚ) (piQ cx cy radius : ℚ) (n i : ℕ)
    (l : List Node) :
    placeCircle cosQ sinQ piQ cx cy radius n i
      (placeCircle cosQ sinQ piQ cx cy radius n i l) =
      placeCircle cosQ sinQ piQ cx cy radius n i l := by
  induction l generalizing i with
  | nil => rfl
  | cons a r ih => simp [placeCircle, ih]

theorem updateNodePosition_length (g : Graph) (i : ℕ) (p : Pt) :
    (updateNodePosition g i p).nodes.length = g.nodes.length := by
  simp [updateNodePosition]

theorem updateNodePosition_idem (g : Graph) (i : ℕ) (p : Pt) :
    updateNodePosition (updateNodePosition g i p) i p = updateNodePosition g i p := by
  obtain ⟨ns, es⟩ := g
  simp only [updateNodePosition, List.map_map, Graph.mk.injEq, and_true]
  apply List.map_congr_left
  intro nd _
  by_cases h : nd.id = i <;> simp [h]

theorem updateNodePosition_headI_id (g : Graph) (i : ℕ) (p : Pt) :
    (updateNodePosition g i p).nodes.headI.id = g.nodes.headI.id := by
  obtain ⟨ns, es⟩ := g
  cases ns with
  | nil => rfl
  | cons a r =>
      simp only [updateNodePosition, List.map_cons, List.headI]
      by_cases h : a.id = i <;> simp [h]

theorem circularApply_deterministic (cosQ sinQ : ℚ → ℚ) (piQ : ℚ) (g : Graph)
    (cfg : LayoutConfig) :
    (circularApply cosQ sinQ piQ (circularApply cosQ sinQ piQ g cfg).2 cfg).2 =
      (circularApply cosQ sinQ piQ g cfg).2 := by
  obtain ⟨ns, es⟩ := g
  rcases eq_or_ne ns.length 0 with h0 | h0
  · simp [circularApply, h0]
  · rcases eq_or_ne ns.length 1 with h1 | h1
    · have e1 : (circularApply cosQ sinQ piQ ⟨ns, es⟩ cfg).2 =
          updateNodePosition ⟨ns, es⟩ (ns.headI.id) ⟨cfg.marginX + 100, cfg.marginY + 100⟩ := by
        unfold circularApply
        rw [if_neg h0, if_pos h1]
      rw [e1]
      have hl : (updateNodePosition ⟨ns, es⟩ (ns.headI.id)
          ⟨cfg.marginX + 100, cfg.marginY + 100⟩).nodes.length = 1 := by
        rw [updateNodePosition_length]; exact h1
      unfold circularApply
      rw [if_neg (by rw [hl]; norm_num), if_pos hl]
      have hid := updateNodePosition_headI_id ⟨ns, es⟩ (ns.headI.id)
        ⟨cfg.marginX + 100, cfg.marginY + 100⟩
      simp only at hid ⊢
      rw [hid]
      exact updateNodePosition_idem _ _ _
    · have e1 : (circularApply cosQ sinQ piQ ⟨ns, es⟩ cfg).2 =
          { nodes := placeCircle cosQ sinQ piQ
              (cfg.marginX + max ((ns.length : ℚ) * cfg.nodeSpacing / (2 * piQ)) 100)
              (cfg.marginY + max ((ns.length : ℚ) * cfg.nodeSpacing / (2 * piQ)) 100)
              (max ((ns.length : ℚ) * cfg.nodeSpacing / (2 * piQ)) 100) ns.length 0 ns,
            edges := es } := by
        unfold circularApply
        rw [if_neg h0, if_neg h1]
      rw [e1]
      have hlen := placeCircle_length cosQ sinQ piQ
        (cfg.marginX + max ((ns.length : ℚ) * cfg.nodeSpacing / (2 * piQ)) 100)
        (cfg.marginY + max ((ns.length : ℚ) * cfg.nodeSpacing / (2 * piQ)) 100)
        (max ((ns.length : ℚ) * cfg.nodeSpacing / (2 * piQ)) 100) ns.length 0 ns
      unfold circularApply
      rw [if_neg (by simp only [hlen]; exact h0), if_neg (by simp only [hlen]; exact h1)]
      simp only [hlen, Graph.mk.injEq, and_true]
      exact placeCircle_idem _ _ _ _ _ _ _ _ _

/-- C8: GridLayout and CircularLayout are deterministic for a fixed container
iteration order: re-running `apply` on the unmodified result reproduces the
first run exactly (same node positions, sizes, ids, edges). -/
theorem grid_circular_deterministic (g : Graph) (cfg : LayoutConfig)
    (cosQ sinQ : ℚ → ℚ) (piQ : ℚ) :
    (gridApply (gridApply g cfg).2 cfg).2 = (gridApply g cfg).2 ∧
    (circularApply cosQ sinQ piQ (circularApply cosQ sinQ piQ g cfg).2 cfg).2 =
      (circularApply cosQ sinQ piQ g cfg).2 :=
  ⟨gridApply_deterministic g cfg, circularApply_deterministic cosQ sinQ piQ g cfg⟩

/-! ### The grid contract (claim C6) -/

theorem gridCols_is_ceil_sqrt (n : ℕ) (hn : 0 < n) :
    n ≤ gridCols n * gridCols n ∧ ∀ c : ℕ, n ≤ c * c → gridCols n ≤ c := by
  constructor
  · have h := Nat.lt_succ_sqrt (n - 1)
    simp only [Nat.succ_eq_add_one] at h
    unfold gridCols
    omega
  · intro c hc
    unfold gridCols
    have hlt : n - 1 < c * c := by omega
    have := Nat.sqrt_lt.mpr hlt
    omega

theorem gridRows_is_ceil_div (n c : ℕ) (hc : 0 < c) :
    n ≤ gridRows n c * c ∧ ∀ r : ℕ, n ≤ r * c → gridRows n c ≤ r := by
  constructor
  · unfold gridRows
    have h1 := Nat.div_add_mod (n + c - 1) c
    rw [Nat.mul_comm] at h1
    have h2 : (n + c - 1) % c < c := Nat.mod_lt _ hc
    omega
  · intro r hr
    unfold gridRows
    have : (n + c - 1) / c < r + 1 := by
      rw [Nat.div_lt_iff_lt_mul hc]
      have : (r + 1) * c = r * c + c := by ring
      omega
    omega

/-- The statement of claim C6 exactly as the spec words it: grid dimensions
`cols = ceil(sqrt n)`, `rows = ceil(n/cols)`, cell sizes
`max(default_min, max node extent in graph) + nodeSpacing`, row-major
placement in container order with centering and margin offset, and the
bounding-box formula.  (The cell-size formula here is the claimed one; the
code applies the 50/30 default only when the maximum is not positive and
additionally clamps cells to at least 80×60.) -/
def C6ClaimStatement : Prop :=
  ∀ (g : Graph) (cfg : LayoutConfig), g.nodes ≠ [] →
    (∀ k : ℕ, ((gridApply g cfg).2.nodes)[k]? = (g.nodes[k]?).map (fun nd =>
      { nd with position :=
          ⟨cfg.marginX + ((k % gridCols g.nodes.length : ℕ) : ℚ) *
              (max 50 (qmaxL (g.nodes.map (fun x => x.size.x))) + cfg.nodeSpacing) +
              ((max 50 (qmaxL (g.nodes.map (fun x => x.size.x))) + cfg.nodeSpacing) - nd.size.x) / 2,
           cfg.marginY + ((k / gridCols g.nodes.length : ℕ) : ℚ) *
              (max 30 (qmaxL (g.nodes.map (fun x => x.size.y))) + cfg.nodeSpacing) +
              ((max 30 (qmaxL (g.nodes.map (fun x => x.size.y))) + cfg.nodeSpacing) - nd.size.y) / 2⟩ })) ∧
    (gridApply g cfg).1.boundingBox =
      ⟨(gridCols g.nodes.length : ℚ) *
          (max 50 (qmaxL (g.nodes.map (fun x => x.size.x))) + cfg.nodeSpacing) + 2 * cfg.marginX,
        (gridRows g.nodes.length (gridCols g.nodes.length) : ℚ) *
          (max 30 (qmaxL (g.nodes.map (fun x => x.size.y))) + cfg.nodeSpacing) + 2 * cfg.marginY⟩

/-- C6 counterexample: for a single node of size 10×10 under the default
config, the code computes cell width `10 + 80 = 90` (clamped to at least 80)
and places the node at x = 90, while the claimed formula
`max(50, 10) + 80 = 130` would place it at x = 110. -/
theorem grid_contract_claim_false : ¬ C6ClaimStatement := by
  intro h
  have h1 := (h ⟨[⟨1, ⟨0, 0⟩, ⟨10, 10⟩⟩], []⟩ defaultConfig (by simp)).1 0
  simp only [gridApply, defaultConfig] at h1
  norm_num [placeGrid, findMaxNodeWidth, findMaxNodeHeight, qmaxL, gridCols] at h1

/-- C6 (amended): the grid contract as the code computes it.  `cols` is the
least `c` with `n ≤ c·c` (that is, `ceil(sqrt n)`), `rows` the least `r`
with `n ≤ r·cols`; the cell width is `(max node width, or 50 when that is
not positive) + nodeSpacing`, clamped below by 80 (height: default 30,
clamp 60); nodes go to cells in container iteration order, row-major,
centered in their cell and offset by the margins; the bounding box is
`(cols·cellW + 2·marginX, rows·cellH + 2·marginY)`. -/
theorem grid_contract (g : Graph) (cfg : LayoutConfig) (hne : g.nodes.length ≠ 0) :
    (gridApply g cfg).1.success = true ∧
    (g.nodes.length ≤ gridCols g.nodes.length * gridCols g.nodes.length ∧
      ∀ c : ℕ, g.nodes.length ≤ c * c → gridCols g.nodes.length ≤ c) ∧
    (g.nodes.length ≤
        gridRows g.nodes.length (gridCols g.nodes.length) * gridCols g.nodes.length ∧
      ∀ r : ℕ, g.nodes.length ≤ r * gridCols g.nodes.length →
        gridRows g.nodes.length (gridCols g.nodes.length) ≤ r) ∧
    (∀ k : ℕ, ((gridApply g cfg).2.nodes)[k]? = (g.nodes[k]?).map (fun nd =>
      { nd with position :=
          ⟨cfg.marginX + ((k % gridCols g.nodes.length : ℕ) : ℚ) *
              max (findMaxNodeWidth g + cfg.nodeSpacing) 80 +
              (max (findMaxNodeWidth g + cfg.nodeSpacing) 80 - nd.size.x) / 2,
           cfg.marginY + ((k / gridCols g.nodes.length : ℕ) : ℚ) *
              max (findMaxNodeHeight g + cfg.nodeSpacing) 60 +
              (max (findMaxNodeHeight g + cfg.nodeSpacing) 60 - nd.size.y) / 2⟩ })) ∧
    (gridApply g cfg).1.boundingBox =
      ⟨(gridCols g.nodes.length : ℚ) * max (findMaxNodeWidth g + cfg.nodeSpacing) 80 +
          2 * cfg.marginX,
        (gridRows g.nodes.length (gridCols g.nodes.length) : ℚ) *
          max (findMaxNodeHeight g + cfg.nodeSpacing) 60 + 2 * cfg.marginY⟩ := by
  have hn : 0 < g.nodes.length := Nat.pos_of_ne_zero hne
  have hcols : 0 < gridCols g.nodes.length := Nat.succ_pos _
  refine ⟨?_, gridCols_is_ceil_sqrt _ hn, gridRows_is_ceil_div _ _ hcols, ?_, ?_⟩
  · unfold gridApply
    rw [if_neg hne]
  · intro k
    rw [gridApply_snd g cfg hne]
    have h := placeGrid_getElem? cfg (gridCols g.nodes.length)
      (max (findMaxNodeWidth g + cfg.nodeSpacing) 80)
      (max (findMaxNodeHeight g + cfg.nodeSpacing) 60) 0 k g.nodes
    simpa using h
  · unfold gridApply
    rw [if_neg hne]

/-- Instantiation of `grid_contract` at a concrete 2-node graph. -/
theorem grid_contract_witness :
    (gridApply ⟨[mkNode 1, mkNode 2], []⟩ defaultConfig).1.boundingBox =
      ⟨(2 : ℚ) * 130 + 2 * 50, 1 * 110 + 2 * 50⟩ := by
  have h := (grid_contract ⟨[mkNode 1, mkNode 2], []⟩ defaultConfig (by norm_num)).2.2.2.2
  rw [h]
  norm_num [findMaxNodeWidth, findMaxNodeHeight, mkNode, qmaxL, gridCols, gridRows,
    defaultConfig]

/-! ### scaleToFit (claim C3) -/

theorem min_affine (s m a b : ℚ) (hs : 0 ≤ s) :
    min (s * a + m) (s * b + m) = s * min a b + m := by
  rcases le_total a b with h | h
  · rw [min_eq_left h, min_eq_left]
    have := mul_le_mul_of_nonneg_left h hs
    linarith
  · rw [min_eq_right h, min_eq_right]
    have := mul_le_mul_of_nonneg_left h hs
    linarith

theorem max_affine (s m a b : ℚ) (hs : 0 ≤ s) :
    max (s * a + m) (s * b + m) = s * max a b + m := by
  rcases le_total a b with h | h
  · rw [max_eq_right h, max_eq_right]
    have := mul_le_mul_of_nonneg_left h hs
    linarith
  · rw [max_eq_left h, max_eq_left]
    have := mul_le_mul_of_nonneg_left h hs
    linarith

theorem foldl_min_affine (s m : ℚ) (hs : 0 ≤ s) (l : List ℚ) (a : ℚ) :
    (l.map (fun x => s * x + m)).foldl min (s * a + m) = s * l.foldl min a + m := by
  induction l generalizing a with
  | nil => rfl
  | cons b r ih =>
      simp only [List.map_cons, List.foldl_cons]
      rw [min_affine s m a b hs, ih]

theorem foldl_max_affine (s m : ℚ) (hs : 0 ≤ s) (l : List ℚ) (a : ℚ) :
    (l.map (fun x => s * x + m)).foldl max (s * a + m) = s * l.foldl max a + m := by
  induction l generalizing a with
  | nil => rfl
  | cons b r ih =>
      simp only [List.map_cons, List.foldl_cons]
      rw [max_affine s m a b hs, ih]

theorem qminL_affine (s m : ℚ) (hs : 0 ≤ s) (l : List ℚ) (hne : l ≠ []) :
    qminL (l.map (fun x => s * x + m)) = s * qminL l + m := by
  cases l with
  | nil => exact absurd rfl hne
  | cons a r =>
      simp only [List.map_cons, qminL]
      exact foldl_min_affine s m hs r a

theorem qmaxL_affine (s m : ℚ) (hs : 0 ≤ s) (l : List ℚ) (hne : l ≠ []) :
    qmaxL (l.map (fun x => s * x + m)) = s * qmaxL l + m := by
  cases l with
  | nil => exact absurd rfl hne
  | cons a r =>
      simp only [List.map_cons, qmaxL]
      exact foldl_max_affine s m hs r a

theorem foldl_max_mono (l : List ℚ) (a₁ a₂ : ℚ) (ha : a₁ ≤ a₂) :
    l.foldl max a₁ ≤ l.foldl max a₂ := by
  induction l generalizing a₁ a₂ with
  | nil => exact ha
  | cons b r ih => exact ih _ _ (max_le_max ha le_rfl)

theorem qmaxL_map_le (f h : Node → ℚ) (l : List Node)
    (hfh : ∀ x ∈ l, f x ≤ h x) :
    qmaxL (l.map f) ≤ qmaxL (l.map h) := by
  cases l with
  | nil => exact le_rfl
  | cons a r =>
      simp only [List.map_cons, qmaxL]
      have aux : ∀ (s : List Node) (a₁ a₂ : ℚ), a₁ ≤ a₂ → (∀ x ∈ s, f x ≤ h x) →
          (s.map f).foldl max a₁ ≤ (s.map h).foldl max a₂ := by
        intro s
        induction s with
        | nil => intro a₁ a₂ ha _; exact ha
        | cons b t ih =>
            intro a₁ a₂ ha hmem
            simp only [List.map_cons, List.foldl_cons]
            exact ih _ _ (max_le_max ha (hmem b (List.mem_cons_self b t)))
              (fun x hx => hmem x (List.mem_cons_of_mem b hx))
      exact aux r _ _ (hfh a (List.mem_cons_self a r))
        (fun x hx => hfh x (List.mem_cons_of_mem a hx))

/-- The statement of claim C3 exactly as the spec words it: for every
non-empty graph with a positive bounding box, after
`scaleToFit(graph, targetWidth, targetHeight, margin)` the bounding box fits
within `(targetWidth - 2 margin, targetHeight - 2 margin)`. -/
def C3ClaimStatement : Prop :=
  ∀ (g : Graph) (tw th m : ℚ), g.nodes ≠ [] →
    0 < (calculateBoundingBox g).x → 0 < (calculateBoundingBox g).y →
    (calculateBoundingBox (scaleToFit g tw th m)).x ≤ tw - 2 * m ∧
    (calculateBoundingBox (scaleToFit g tw th m)).y ≤ th - 2 * m

/-- C3 counterexample: `scaleToFit` rescales positions only, never node
sizes, so a single node of width 1400 still has bounding box width 1400
after `scaleToFit(800, 600, 50)`, which exceeds the available 700. -/
theorem scaleToFit_claim_false : ¬ C3ClaimStatement := by
  intro h
  have h1 := h ⟨[⟨1, ⟨0, 0⟩, ⟨1400, 100⟩⟩], []⟩ 800 600 50 (by simp)
    (by norm_num [calculateBoundingBox, qmaxL, qminL])
    (by norm_num [calculateBoundingBox, qmaxL, qminL])
  norm_num [calculateBoundingBox, scaleToFit, qmaxL, qminL] at h1

theorem calculateBoundingBox_x (g : Graph) (hne : g.nodes ≠ []) :
    (calculateBoundingBox g).x =
      qmaxL (g.nodes.map (fun nd => nd.position.x + nd.size.x)) -
        qminL (g.nodes.map (fun nd => nd.position.x)) := by
  unfold calculateBoundingBox
  rw [if_neg hne]

theorem calculateBoundingBox_y (g : Graph) (hne : g.nodes ≠ []) :
    (calculateBoundingBox g).y =
      qmaxL (g.nodes.map (fun nd => nd.position.y + nd.size.y)) -
        qminL (g.nodes.map (fun nd => nd.position.y)) := by
  unfold calculateBoundingBox
  rw [if_neg hne]

theorem scaleToFit_eq (g : Graph) (tw th m : ℚ) (hne : g.nodes ≠ [])
    (hbx : 0 < (calculateBoundingBox g).x) (hby : 0 < (calculateBoundingBox g).y) :
    scaleToFit g tw th m = Graph.mk (g.nodes.map (fun nd =>
      { nd with position :=
          ⟨nd.position.x * min ((tw - 2 * m) / (calculateBoundingBox g).x)
              ((th - 2 * m) / (calculateBoundingBox g).y) + m,
           nd.position.y * min ((tw - 2 * m) / (calculateBoundingBox g).x)
              ((th - 2 * m) / (calculateBoundingBox g).y) + m⟩ })) g.edges := by
  unfold scaleToFit
  rw [if_neg hne, if_neg (by
    intro hc
    rcases hc with hc | hc
    · exact absurd hbx (by linarith)
    · exact absurd hby (by linarith))]

/-- C3 (amended): for a non-empty graph with nonnegative node sizes and a
positive bounding box that already fits in the available area (so the
computed uniform scale factor is at least 1), the bounding box after
`scaleToFit(targetWidth, targetHeight, margin)` still fits within
`(targetWidth - 2 margin, targetHeight - 2 margin)`; in particular for
`scaleToFit(800, 600, 50)` it fits within `(700, 500)`.  (Node sizes are
never rescaled, so a downscale of an oversized graph can overflow.) -/
theorem scaleToFit_fits (g : Graph) (tw th m : ℚ)
    (hne : g.nodes ≠ [])
    (hszx : ∀ nd ∈ g.nodes, 0 ≤ nd.size.x) (hszy : ∀ nd ∈ g.nodes, 0 ≤ nd.size.y)
    (hbx : 0 < (calculateBoundingBox g).x) (hby : 0 < (calculateBoundingBox g).y)
    (hfitx : (calculateBoundingBox g).x ≤ tw - 2 * m)
    (hfity : (calculateBoundingBox g).y ≤ th - 2 * m) :
    (calculateBoundingBox (scaleToFit g tw th m)).x ≤ tw - 2 * m ∧
    (calculateBoundingBox (scaleToFit g tw th m)).y ≤ th - 2 * m := by
  set b := calculateBoundingBox g with hb
  set s : ℚ := min ((tw - 2 * m) / b.x) ((th - 2 * m) / b.y) with hsdef
  have hs1 : 1 ≤ s := by
    apply le_min
    · rw [le_div_iff hbx]; linarith
    · rw [le_div_iff hby]; linarith
  have hs0 : (0 : ℚ) ≤ s := by linarith
  have hsx : s * b.x ≤ tw - 2 * m := by
    have h1 : s ≤ (tw - 2 * m) / b.x := min_le_left _ _
    calc s * b.x ≤ (tw - 2 * m) / b.x * b.x :=
          mul_le_mul_of_nonneg_right h1 (le_of_lt hbx)
      _ = tw - 2 * m := div_mul_cancel₀ _ (ne_of_gt hbx)
  have hsy : s * b.y ≤ th - 2 * m := by
    have h1 : s ≤ (th - 2 * m) / b.y := min_le_right _ _
    calc s * b.y ≤ (th - 2 * m) / b.y * b.y :=
          mul_le_mul_of_nonneg_right h1 (le_of_lt hby)
      _ = th - 2 * m := div_mul_cancel₀ _ (ne_of_gt hby)
  rw [scaleToFit_eq g tw th m hne hbx hby]
  have hne2 : (g.nodes.map (fun nd =>
      ({ nd with position :=
          ⟨nd.position.x * s + m, nd.position.y * s + m⟩ } : Node))) ≠ [] := by
    simpa using hne
  constructor
  · rw [calculateBoundingBox_x _ (by simpa using hne)]
    simp only [List.map_map]
    have emax : ((fun nd : Node => nd.position.x + nd.size.x) ∘ (fun nd : Node =>
        ({ nd with position := ⟨nd.position.x * s + m, nd.position.y * s + m⟩ } : Node))) =
        fun nd : Node => nd.position.x * s + m + nd.size.x := rfl
    have emin : ((fun nd : Node => nd.position.x) ∘ (fun nd : Node =>
        ({ nd with position := ⟨nd.position.x * s + m, nd.position.y * s + m⟩ } : Node))) =
        fun nd : Node => nd.position.x * s + m := rfl
    rw [emax, emin]
    have hmax : qmaxL (g.nodes.map fun nd => nd.position.x * s + m + nd.size.x) ≤
        s * qmaxL (g.nodes.map fun nd => nd.position.x + nd.size.x) + m := by
      have step1 : qmaxL (g.nodes.map fun nd => nd.position.x * s + m + nd.size.x) ≤
          qmaxL (g.nodes.map fun nd => s * (nd.position.x + nd.size.x) + m) := by
        apply qmaxL_map_le
        intro nd hnd
        have hw := hszx nd hnd
        nlinarith [mul_nonneg (by linarith : (0:ℚ) ≤ s - 1) hw]
      have step2 : qmaxL (g.nodes.map fun nd => s * (nd.position.x + nd.size.x) + m) =
          s * qmaxL (g.nodes.map fun nd => nd.position.x + nd.size.x) + m := by
        rw [show (g.nodes.map fun nd => s * (nd.position.x + nd.size.x) + m) =
            ((g.nodes.map fun nd => nd.position.x + nd.size.x).map fun x => s * x + m) by
          rw [List.map_map]; rfl]
        exact qmaxL_affine s m hs0 _ (by simpa using hne)
      linarith
    have hmin : qminL (g.nodes.map fun nd => nd.position.x * s + m) =
        s * qminL (g.nodes.map fun nd => nd.position.x) + m := by
      rw [show (g.nodes.map fun nd => nd.position.x * s + m) =
          ((g.nodes.map fun nd => nd.position.x).map fun x => s * x + m) by
        rw [List.map_map]
        exact List.map_congr_left (fun nd _ => by simp only [Function.comp_apply]; ring)]
      exact qminL_affine s m hs0 _ (by simpa using hne)
    have hbbx : (b.x : ℚ) =
        qmaxL (g.nodes.map fun nd => nd.position.x + nd.size.x) -
          qminL (g.nodes.map fun nd => nd.position.x) := calculateBoundingBox_x g hne
    rw [hmin]
    nlinarith [hmax, hsx, hbbx]
  · rw [calculateBoundingBox_y _ (by simpa using hne)]
    simp only [List.map_map]
    have emax : ((fun nd : Node => nd.position.y + nd.size.y) ∘ (fun nd : Node =>
        ({ nd with position := ⟨nd.position.x * s + m, nd.position.y * s + m⟩ } : Node))) =
        fun nd : Node => nd.position.y * s + m + nd.size.y := rfl
    have emin : ((fun nd : Node => nd.position.y) ∘ (fun nd : Node =>
        ({ nd with position := ⟨nd.position.x * s + m, nd.position.y * s + m⟩ } : Node))) =
        fun nd : Node => nd.position.y * s + m := rfl
    rw [emax, emin]
    have hmax : qmaxL (g.nodes.map fun nd => nd.position.y * s + m + nd.size.y) ≤
        s * qmaxL (g.nodes.map fun nd => nd.position.y + nd.size.y) + m := by
      have step1 : qmaxL (g.nodes.map fun nd => nd.position.y * s + m + nd.size.y) ≤
          qmaxL (g.nodes.map fun nd => s * (nd.position.y + nd.size.y) + m) := by
        apply qmaxL_map_le
        intro nd hnd
        have hw := hszy nd hnd
        nlinarith [mul_nonneg (by linarith : (0:ℚ) ≤ s - 1) hw]
      have step2 : qmaxL (g.nodes.map fun nd => s * (nd.position.y + nd.size.y) + m) =
          s * qmaxL (g.nodes.map fun nd => nd.position.y + nd.size.y) + m := by
        rw [show (g.nodes.map fun nd => s * (nd.position.y + nd.size.y) + m) =
            ((g.nodes.map fun nd => nd.position.y + nd.size.y).map fun x => s * x + m) by
          rw [List.map_map]; rfl]
        exact qmaxL_affine s m hs0 _ (by simpa using hne)
      linarith
    have hmin : qminL (g.nodes.map fun nd => nd.position.y * s + m) =
        s * qminL (g.nodes.map fun nd => nd.position.y) + m := by
      rw [show (g.nodes.map fun nd => nd.position.y * s + m) =
          ((g.nodes.map fun nd => nd.position.y).map fun x => s * x + m) by
        rw [List.map_map]
        exact List.map_congr_left (fun nd _ => by simp only [Function.comp_apply]; ring)]
      exact qminL_affine s m hs0 _ (by simpa using hne)
    have hbby : (b.y : ℚ) =
        qmaxL (g.nodes.map fun nd => nd.position.y + nd.size.y) -
          qminL (g.nodes.map fun nd => nd.position.y) := calculateBoundingBox_y g hne
    rw [hmin]
    nlinarith [hmax, hsy, hbby]

/-- Instantiation of `scaleToFit_fits` at the spec's two-node example with
targets 800×600 and margin 50. -/
theorem scaleToFit_fits_witness :
    (calculateBoundingBox (scaleToFit
      ⟨[⟨1, ⟨10, 20⟩, ⟨50, 30⟩⟩, ⟨2, ⟨100, 200⟩, ⟨50, 30⟩⟩], []⟩ 800 600 50)).x ≤
        800 - 2 * 50 ∧
    (calculateBoundingBox (scaleToFit
      ⟨[⟨1, ⟨10, 20⟩, ⟨50, 30⟩⟩, ⟨2, ⟨100, 200⟩, ⟨50, 30⟩⟩], []⟩ 800 600 50)).y ≤
        600 - 2 * 50 :=
  scaleToFit_fits ⟨[⟨1, ⟨10, 20⟩, ⟨50, 30⟩⟩, ⟨2, ⟨100, 200⟩, ⟨50, 30⟩⟩], []⟩ 800 600 50
    (by simp)
    (by intro nd hnd; fin_cases hnd <;> norm_num)
    (by intro nd hnd; fin_cases hnd <;> norm_num)
    (by rw [calculateBoundingBox_x _ (by simp)]; norm_num [qmaxL, qminL, max_def, min_def])
    (by rw [calculateBoundingBox_y _ (by simp)]; norm_num [qmaxL, qminL, max_def, min_def])
    (by rw [calculateBoundingBox_x _ (by simp)]; norm_num [qmaxL, qminL, max_def, min_def])
    (by rw [calculateBoundingBox_y _ (by simp)]; norm_num [qmaxL, qminL, max_def, min_def])

/-! ### Registry vs facade error behavior (claim C9) -/

/-- C9: for any registry state, an unregistered name makes
`LayoutRegistry::create` return an absent value without throwing while the
`Layout` constructor throws (`Except.error`) for the same name; a registered
name succeeds through both entry points and selects the same algorithm. -/
theorem registry_vs_facade (reg : RegistryState) (name : String) :
    ((∀ p ∈ reg, p.1 ≠ name) →
      registryCreate reg name = none ∧
      layoutNew reg name = Except.error ("Unknown layout algorithm: " ++ name)) ∧
    (∀ a : AlgKind, registryCreate reg name = some a →
      layoutNew reg name = Except.ok a) := by
  constructor
  · intro h
    have hf : List.find? (fun p => p.1 = name) reg = none := by
      rw [List.find?_eq_none]
      intro p hp
      simp [h p hp]
    constructor
    · simp [registryCreate, hf]
    · simp [layoutNew, registryCreate, hf]
  · intro a ha
    simp [layoutNew, ha]

/-- Instantiation of `registry_vs_facade` at the four registered algorithm
names of the spec and an unknown name. -/
theorem registry_vs_facade_witness :
    registryCreate [("hierarchical", AlgKind.hierarchical),
      ("force_directed", AlgKind.forceDirected), ("grid", AlgKind.grid),
      ("circular", AlgKind.circular)] "treemap" = none ∧
    layoutNew [("hierarchical", AlgKind.hierarchical),
      ("force_directed", AlgKind.forceDirected), ("grid", AlgKind.grid),
      ("circular", AlgKind.circular)] "treemap" =
        Except.error ("Unknown layout algorithm: " ++ "treemap") ∧
    layoutNew [("hierarchical", AlgKind.hierarchical),
      ("force_directed", AlgKind.forceDirected), ("grid", AlgKind.grid),
      ("circular", AlgKind.circular)] "grid" = Except.ok AlgKind.grid := by
  have h1 := (registry_vs_facade [("hierarchical", AlgKind.hierarchical),
    ("force_directed", AlgKind.forceDirected), ("grid", AlgKind.grid),
    ("circular", AlgKind.circular)] "treemap").1 (by decide)
  have h2 := (registry_vs_facade [("hierarchical", AlgKind.hierarchical),
    ("force_directed", AlgKind.forceDirected), ("grid", AlgKind.grid),
    ("circular", AlgKind.circular)] "grid").2 AlgKind.grid (by decide)
  exact ⟨h1.1, h1.2, h2⟩

/-! ### HierarchicalLayout (`HierarchicalLayout.hpp`)

Phase 1 (`assignLayers`) is a Kahn-style sweep over a work queue.  The C++
maps `in_degree`, `node_layers`, `node_to_layer_` are modelled by total
functions (`operator[]` default-inserts 0, which coincides with the total
function defaulting to 0 on keys never written) together with an explicit
key-insertion-order list `keys` for `node_layers`, which determines the
iteration order when `layers_` is built.  The `while` loop is modelled with
a fuel parameter; `nodes + edges + 1` units of fuel are provably enough,
since every node enters the queue at most once (each unit of fuel performs
one pop). -/

/-- Decrement of a `size_t` value, with the unsigned wrap-around at 0
(`in_degree[edge.to]--`). -/
def decWrap (d : ℕ) : ℕ := if d = 0 then 2 ^ 64 - 1 else d - 1

/-- Number of incoming edges of `v` (the initial `in_degree` entry). -/
def inCount (edges : List Edge) (v : ℕ) : ℕ := edges.countP (fun e => e.dst = v)

/-- State of the Kahn sweep in `assignLayers`. -/
structure KahnSt where
  queue : List ℕ
  indeg : ℕ → ℕ
  layers : ℕ → ℕ
  keys : List ℕ
  processed : ℕ
  maxLayer : ℕ

/-- Key insertion for `node_layers` (`operator[]` appends a missing key). -/
def insertKey (ks : List ℕ) (v : ℕ) : List ℕ := if v ∈ ks then ks else ks ++ [v]

/-- The inner `for (edge : edges)` loop processing node `c`, whose layer
value `cl` was read before the loop: each out-edge of `c` decrements the
target's in-degree, raises its layer to at least `cl + 1`, and enqueues it
when the in-degree reaches zero. -/
def relaxAll (c cl : ℕ) : List Edge → KahnSt → KahnSt
  | [], t => t
  | e :: rest, t =>
      if e.src = c then
        let d := decWrap (t.indeg e.dst)
        relaxAll c cl rest
          { t with
            indeg := Function.update t.indeg e.dst d
            layers := Function.update t.layers e.dst (max (t.layers e.dst) (cl + 1))
            keys := insertKey t.keys e.dst
            queue := if d = 0 then t.queue ++ [e.dst] else t.queue }
      else relaxAll c cl rest t

/-- The `while (!ready_nodes.empty())` loop, with fuel (one unit per pop). -/
def kahnLoop (edges : List Edge) : ℕ → KahnSt → KahnSt
  | 0, s => s
  | fuel + 1, s =>
      match s.queue with
      | [] => s
      | c :: rest =>
          kahnLoop edges fuel (relaxAll c (s.layers c) edges
            { s with queue := rest, processed := s.processed + 1,
                     maxLayer := max s.maxLayer (s.layers c) })

/-- The initial sweep state: in-degrees counted from the edge list, the
ready queue seeded with the in-degree-zero nodes (in map iteration order;
edge targets all have positive in-degree, so only graph nodes qualify),
each with layer 0. -/
def initSt (g : Graph) : KahnSt :=
  let seeds := g.ids.filter (fun v => inCount g.edges v = 0)
  { queue := seeds
    indeg := fun v => inCount g.edges v
    layers := fun _ => 0
    keys := seeds
    processed := 0
    maxLayer := 0 }

/-- The sweep state after the loop. -/
def runKahn (g : Graph) : KahnSt :=
  kahnLoop g.edges (g.nodes.length + g.edges.length + 1) (initSt g)

/-- The data `assignLayers` leaves for the later phases: `layers_` (node ids
per layer) and `node_to_layer_`. -/
structure LayersOut where
  layersList : List (List ℕ)
  nodeLayer : ℕ → ℕ

/-- Model of `assignLayers`: `false` (here `none`) when fewer nodes were
processed than exist; otherwise `layers_` is built by iterating
`node_layers` in key-insertion order. -/
def assignLayersResult (g : Graph) : Option LayersOut :=
  let s := runKahn g
  if s.processed = g.nodes.length then
    some ⟨(List.range (s.maxLayer + 1)).map
        (fun l => s.keys.filter (fun v => s.layers v = l)), s.layers⟩
  else none

/-- Lexicographic order on (barycenter, node id) pairs: `std::sort` over
`std::pair<T, NodeId>`.  The pairs of one layer are pairwise distinct (the
ids are), so the std::sort result is this unique sorted order. -/
def pairLE (p q : ℚ × ℕ) : Prop := p.1 < q.1 ∨ (p.1 = q.1 ∧ p.2 ≤ q.2)

instance : DecidableRel pairLE := fun p q => by unfold pairLE; infer_instance

/-- Model of `calculateBarycenter`: mean index-position, within the adjacent
layer, of the predecessors (forward) or successors (backward); 0 when there
are none. -/
def calculateBarycenter (edges : List Edge) (nodeLayer : ℕ → ℕ)
    (ll : List (List ℕ)) (nodeId : ℕ) (forward : Bool) : ℚ :=
  let cur := nodeLayer nodeId
  let sc : ℚ × ℕ :=
    if forward ∧ 0 < cur then
      edges.foldl (fun acc e =>
        if e.dst = nodeId ∧ nodeLayer e.src = cur - 1 then
          if e.src ∈ ll.getD (cur - 1) [] then
            (acc.1 + ((ll.getD (cur - 1) []).indexOf e.src : ℚ), acc.2 + 1)
          else acc
        else acc) (0, 0)
    else if ¬ forward ∧ cur + 1 < ll.length then
      edges.foldl (fun acc e =>
        if e.src = nodeId ∧ nodeLayer e.dst = cur + 1 then
          if e.dst ∈ ll.getD (cur + 1) [] then
            (acc.1 + ((ll.getD (cur + 1) []).indexOf e.dst : ℚ), acc.2 + 1)
          else acc
        else acc) (0, 0)
    else (0, 0)
  if 0 < sc.2 then sc.1 / (sc.2 : ℚ) else 0

/-- Model of `reorderLayer`: sort one layer by barycenter; reports whether
the order changed. -/
def reorderLayer (edges : List Edge) (nodeLayer : ℕ → ℕ)
    (ll : List (List ℕ)) (layerIdx : ℕ) (forward : Bool) :
    List (List ℕ) × Bool :=
  if layerIdx < ll.length then
    let layer := ll.getD layerIdx []
    if layer.length ≤ 1 then (ll, false)
    else
      let bcs := layer.map (fun v => (calculateBarycenter edges nodeLayer ll v forward, v))
      let newNodes := (List.insertionSort pairLE bcs).map Prod.snd
      (ll.set layerIdx newNodes, decide (newNodes ≠ layer))
  else (ll, false)

/-- Forward pass of one crossing-reduction round (layers `1 .. size-1`). -/
def crossingForward (edges : List Edge) (nodeLayer : ℕ → ℕ)
    (ll : List (List ℕ)) : List (List ℕ) × Bool :=
  (List.range' 1 (ll.length - 1)).foldl (fun acc i =>
    let r := reorderLayer edges nodeLayer acc.1 i true
    (r.1, acc.2 || r.2)) (ll, false)

/-- Backward pass (layers `size-2` down to `0`; for one layer the `size_t`
loop counter starts at `SIZE_MAX` and the loop body never runs, and for
zero layers every iteration is a bounds-checked no-op). -/
def crossingBackward (edges : List Edge) (nodeLayer : ℕ → ℕ)
    (st : List (List ℕ) × Bool) : List (List ℕ) × Bool :=
  ((List.range (st.1.length - 1)).reverse).foldl (fun acc i =>
    let r := reorderLayer edges nodeLayer acc.1 i false
    (r.1, acc.2 || r.2)) st

/-- The round loop of `reduceCrossings`: run forward and backward passes,
stop early after a round that changed nothing. -/
def reduceCrossingsLoop (edges : List Edge) (nodeLayer : ℕ → ℕ) :
    ℕ → List (List ℕ) → List (List ℕ)
  | 0, ll => ll
  | n + 1, ll =>
      let b := crossingBackward edges nodeLayer (crossingForward edges nodeLayer ll)
      if b.2 then reduceCrossingsLoop edges nodeLayer n b.1 else b.1

/-- Model of `reduceCrossings`: at most `iterations / 4` rounds. -/
def reduceCrossings (edges : List Edge) (nodeLayer : ℕ → ℕ)
    (ll : List (List ℕ)) (cfg : LayoutConfig) : List (List ℕ) :=
  reduceCrossingsLoop edges nodeLayer (toSizeT (cfg.iterations / 4)) ll

/-- Model of `findMaxNodeHeightInLayer`: max height over the layer's nodes,
30 when that maximum is not positive. -/
def maxHeightInLayer (g : Graph) (layer : List ℕ) : ℚ :=
  let m := layer.foldl (fun acc v =>
    match getNode? g v with
    | some nd => max acc nd.size.y
    | none => acc) 0
  if 0 < m then m else 30

/-- The inner loop of `assignCoordinates` positioning one layer
left-to-right from `marginX`, at height `y` (missing ids are skipped and do
not advance the cursor). -/
def placeLayerGo (cfg : LayoutConfig) (y : ℚ) : List ℕ → Graph → ℚ → Graph
  | [], g, _ => g
  | v :: rest, g, x =>
      match getNode? g v with
      | some nd => placeLayerGo cfg y rest (updateNodePosition g v ⟨x, y⟩)
          (x + nd.size.x + cfg.nodeSpacing)
      | none => placeLayerGo cfg y rest g x

/-- One layer of `assignCoordinates`. -/
def placeLayer (cfg : LayoutConfig) (g : Graph) (y : ℚ) (layer : List ℕ) : Graph :=
  placeLayerGo cfg y layer g cfg.marginX

/-- The outer loop of `assignCoordinates`: layers top to bottom, advancing
`current_y` by the layer's max node height plus `layerSpacing`. -/
def assignCoordinatesGo (cfg : LayoutConfig) : List (List ℕ) → Graph → ℚ → Graph
  | [], g, _ => g
  | layer :: rest, g, y =>
      let g2 := placeLayer cfg g y layer
      assignCoordinatesGo cfg rest g2 (y + maxHeightInLayer g2 layer + cfg.layerSpacing)

/-- Model of `assignCoordinates`. -/
def assignCoordinates (cfg : LayoutConfig) (g : Graph) (ll : List (List ℕ)) : Graph :=
  assignCoordinatesGo cfg ll g cfg.marginY

/-- Model of `HierarchicalLayout::apply`.  The internal
`calculateBoundingBox` of HierarchicalLayout.hpp is only reached with a
nonempty node container, where it coincides with the guarded utils
version. -/
def hierApply (g : Graph) (cfg : LayoutConfig) : LayoutResult × Graph :=
  if g.nodes.length = 0 then ({ defaultResult with success := true }, g)
  else
    match assignLayersResult g with
    | none =>
        ({ defaultResult with
            success := false
            errorMessage := "Graph contains cycles - not suitable for hierarchical layout" }, g)
    | some lo =>
        let ll := reduceCrossings g.edges lo.nodeLayer lo.layersList cfg
        let g2 := assignCoordinates cfg g ll
        ({ defaultResult with
            success := true
            boundingBox := calculateBoundingBox g2 }, g2)

/-! ### Cycle predicates (for stating acyclicity decidably) -/

/-- Edge relation of the graph. -/
def stepEdge (g : Graph) (u v : ℕ) : Bool := g.edges.any (fun e => e.src = u && e.dst = v)

/-- Bounded reachability: a directed path from `u` to `v` of length between
1 and `k` edges through node vertices. -/
def pathLe (g : Graph) : ℕ → ℕ → ℕ → Bool
  | 0, _, _ => false
  | k + 1, u, v => stepEdge g u v || g.ids.any (fun w => stepEdge g u w && pathLe g k w v)

/-- Whether the graph has a directed cycle through one of its nodes. -/
def hasCycleBool (g : Graph) : Bool := g.ids.any (fun v => pathLe g g.nodes.length v v)

/-- Acyclicity of the node-to-node edge relation. -/
def Acyclic (g : Graph) : Prop := hasCycleBool g = false

/-- Reading a node's y coordinate (0 for an absent id). -/
def posYOf (g : Graph) (v : ℕ) : ℚ :=
  match getNode? g v with
  | some nd => nd.position.y
  | none => 0

/-- Ghost counters for the invariant proofs: how many in-edges of `v` have
already been relaxed, given the list `P` of popped nodes. -/
def relaxedIn (edges : List Edge) (P : List ℕ) (v : ℕ) : ℕ :=
  edges.countP (fun e => e.dst = v && decide (e.src ∈ P))

/-- Multiplicity of the edge `(c, v)` in the edge list. -/
def outMult (edges : List Edge) (c v : ℕ) : ℕ :=
  edges.countP (fun e => e.src = c && e.dst = v)

/-! ### Failure behavior of `hierApply` (claims C10, C4, and the C2
counterexample) -/

theorem assignLayersResult_empty (g : Graph) (h0 : g.nodes.length = 0) :
    assignLayersResult g ≠ none := by
  have hnil : g.nodes = [] := List.length_eq_zero.mp h0
  unfold assignLayersResult runKahn initSt
  simp [Graph.ids, hnil, kahnLoop]

/-- C10: when Phase 1 detects a cycle, `apply` fails with the cycle message
and the graph is returned exactly as it came in: no node position or size is
touched (Phase 1 never writes to the graph). -/
theorem hier_cycle_failure_atomic (g : Graph) (cfg : LayoutConfig)
    (hc : assignLayersResult g = none) :
    (hierApply g cfg).1.success = false ∧
    (hierApply g cfg).1.errorMessage =
      "Graph contains cycles - not suitable for hierarchical layout" ∧
    (hierApply g cfg).2 = g := by
  have h0 : g.nodes.length ≠ 0 := fun h => assignLayersResult_empty g h hc
  unfold hierApply
  rw [if_neg h0, hc]
  exact ⟨rfl, rfl, rfl⟩

/-- Instantiation of `hier_cycle_failure_atomic` at the 3-cycle. -/
theorem hier_cycle_failure_atomic_witness :
    (hierApply ⟨[mkNode 1, mkNode 2, mkNode 3], [⟨1, 2⟩, ⟨2, 3⟩, ⟨3, 1⟩]⟩
        defaultConfig).2 =
      ⟨[mkNode 1, mkNode 2, mkNode 3], [⟨1, 2⟩, ⟨2, 3⟩, ⟨3, 1⟩]⟩ :=
  (hier_cycle_failure_atomic ⟨[mkNode 1, mkNode 2, mkNode 3], [⟨1, 2⟩, ⟨2, 3⟩, ⟨3, 1⟩]⟩
    defaultConfig rfl).2.2

/-- The statement of claim C4, specialised to `HierarchicalLayout` (the
claim asserts it for every algorithm and emphasises the cyclic failure case,
so this instance is implied by it): the reported bounding box always equals
the node extents of the graph as `apply` returns it. -/
def C4ClaimStatement : Prop :=
  ∀ (g : Graph) (cfg : LayoutConfig),
    (hierApply g cfg).1.boundingBox = calculateBoundingBox (hierApply g cfg).2

/-- C4 counterexample: on the 3-cycle, `apply` fails and returns the
default-constructed bounding box (0,0), while the untouched default-sized
nodes have extents (50,30). -/
theorem hier_boundingBox_claim_false : ¬ C4ClaimStatement := by
  intro h
  have h1 := h ⟨[mkNode 1, mkNode 2, mkNode 3], [⟨1, 2⟩, ⟨2, 3⟩, ⟨3, 1⟩]⟩ defaultConfig
  have h2 : (hierApply ⟨[mkNode 1, mkNode 2, mkNode 3], [⟨1, 2⟩, ⟨2, 3⟩, ⟨3, 1⟩]⟩
      defaultConfig).1.boundingBox = ⟨0, 0⟩ := rfl
  have h3 : (hierApply ⟨[mkNode 1, mkNode 2, mkNode 3], [⟨1, 2⟩, ⟨2, 3⟩, ⟨3, 1⟩]⟩
      defaultConfig).2 = ⟨[mkNode 1, mkNode 2, mkNode 3], [⟨1, 2⟩, ⟨2, 3⟩, ⟨3, 1⟩]⟩ := rfl
  rw [h2, h3] at h1
  have hx := congrArg Pt.x h1
  rw [calculateBoundingBox_x _ (by simp)] at hx
  norm_num [qmaxL, qminL, mkNode, max_def, min_def] at hx

/-- C4 (amended): for `HierarchicalLayout`, the reported bounding box equals
the node extents of the returned graph when `apply` succeeds; when it fails
on a cycle, the bounding box is the default-constructed (0,0), not the node
extents. -/
theorem hier_boundingBox_best_effort (g : Graph) (cfg : LayoutConfig) :
    ((hierApply g cfg).1.success = true →
      (hierApply g cfg).1.boundingBox = calculateBoundingBox (hierApply g cfg).2) ∧
    ((hierApply g cfg).1.success = false →
      (hierApply g cfg).1.boundingBox = ⟨0, 0⟩) := by
  unfold hierApply
  rcases eq_or_ne g.nodes.length 0 with h0 | h0
  · rw [if_pos h0]
    have hnil : g.nodes = [] := List.length_eq_zero.mp h0
    constructor
    · intro _
      simp [defaultResult, calculateBoundingBox, hnil]
    · intro h
      simp [defaultResult] at h
  · rw [if_neg h0]
    cases hres : assignLayersResult g with
    | none =>
        constructor
        · intro h
          simp [defaultResult] at h
        · intro _
          rfl
    | some lo =>
        constructor
        · intro _
          rfl
        · intro h
          simp [defaultResult] at h

/-- Instantiation of `hier_boundingBox_best_effort`: the failure side at the
3-cycle. -/
theorem hier_boundingBox_best_effort_witness :
    (hierApply ⟨[mkNode 1, mkNode 2, mkNode 3], [⟨1, 2⟩, ⟨2, 3⟩, ⟨3, 1⟩]⟩
        defaultConfig).1.boundingBox = ⟨0, 0⟩ :=
  (hier_boundingBox_best_effort ⟨[mkNode 1, mkNode 2, mkNode 3],
    [⟨1, 2⟩, ⟨2, 3⟩, ⟨3, 1⟩]⟩ defaultConfig).2 rfl

/-- The statement of claim C2 as the spec words it: a graph containing a
directed cycle always makes `apply` fail with the cycle message. -/
def C2ClaimStatement : Prop :=
  ∀ (g : Graph) (cfg : LayoutConfig), hasCycleBool g = true →
    (hierApply g cfg).1.success = false ∧
    (hierApply g cfg).1.errorMessage =
      "Graph contains cycles - not suitable for hierarchical layout"

/-- C2 counterexample: the processed-node count can be padded by edges whose
endpoints are not nodes.  With nodes 1, 2, 5, the cycle `1 → 2 → 1`, and
edges `5 → 3`, `5 → 4` to nonexistent targets, the sweep processes 5, 3, 4:
three "nodes", equal to `nodeCount`, so `apply` reports success despite the
cycle. -/
theorem hier_cycle_claim_false : ¬ C2ClaimStatement := by
  intro h
  have h1 := (h ⟨[mkNode 1, mkNode 2, mkNode 5], [⟨1, 2⟩, ⟨2, 1⟩, ⟨5, 3⟩, ⟨5, 4⟩]⟩
    defaultConfig (by decide)).1
  have h2 : (hierApply ⟨[mkNode 1, mkNode 2, mkNode 5],
      [⟨1, 2⟩, ⟨2, 1⟩, ⟨5, 3⟩, ⟨5, 4⟩]⟩ defaultConfig).1.success = true := rfl
  rw [h1] at h2
  exact Bool.noConfusion h2

/-! ### Counting lemmas for the Kahn sweep invariant -/

theorem mem_insertKey (ks : List ℕ) (u v : ℕ) :
    v ∈ insertKey ks u ↔ v ∈ ks ∨ v = u := by
  unfold insertKey
  by_cases h : u ∈ ks
  · rw [if_pos h]
    constructor
    · exact Or.inl
    · rintro (hv | rfl)
      · exact hv
      · exact h
  · rw [if_neg h]
    simp [List.mem_append]

theorem nodup_insertKey (ks : List ℕ) (u : ℕ) (h : ks.Nodup) :
    (insertKey ks u).Nodup := by
  unfold insertKey
  by_cases hm : u ∈ ks
  · rwa [if_pos hm]
  · rw [if_neg hm]
    simp [List.nodup_append, h, hm]

theorem relaxedIn_le_inCount (edges : List Edge) (P : List ℕ) (v : ℕ) :
    relaxedIn edges P v ≤ inCount edges v := by
  apply List.countP_mono_left
  intro e _ he
  simp only [Bool.and_eq_true, decide_eq_true_eq] at he ⊢
  exact he.1

theorem relaxedIn_append (edges : List Edge) (P : List ℕ) (c v : ℕ) (hc : c ∉ P) :
    relaxedIn edges (P ++ [c]) v = relaxedIn edges P v + outMult edges c v := by
  induction edges with
  | nil => rfl
  | cons e rest ih =>
      unfold relaxedIn outMult at ih ⊢
      rw [List.countP_cons, List.countP_cons, List.countP_cons, ih]
      by_cases h1 : e.dst = v
      · by_cases h2 : e.src ∈ P
        · have hne : ¬ e.src = c := fun hh => hc (hh ▸ h2)
          simp [h1, h2, hne, List.mem_append]
          omega
        · by_cases h3 : e.src = c
          · simp [h1, h2, h3, hc, List.mem_append]
            omega
          · simp [h1, h2, h3, List.mem_append]
      · simp [h1]

theorem countP_eq_of_imp {α : Type} (p q : α → Bool) (l : List α)
    (himp : ∀ a ∈ l, p a = true → q a = true)
    (heq : l.countP p = l.countP q) :
    ∀ a ∈ l, q a = true → p a = true := by
  induction l with
  | nil => intro a ha; exact absurd ha (List.not_mem_nil a)
  | cons b rest ih =>
      rw [List.countP_cons, List.countP_cons] at heq
      have hle : rest.countP p ≤ rest.countP q :=
        List.countP_mono_left (fun a ha hp => himp a (List.mem_cons_of_mem b ha) hp)
      have hrest : rest.countP p = rest.countP q := by
        cases hpb : p b <;> cases hqb : q b
        · simp [hpb, hqb] at heq; omega
        · simp [hpb, hqb] at heq; omega
        · have h2 := himp b (List.mem_cons_self b rest) hpb
          rw [hqb] at h2
          exact Bool.noConfusion h2
        · simp [hpb, hqb] at heq; omega
      intro a ha hq
      rcases List.mem_cons.mp ha with rfl | ha2
      · by_cases hp : p a = true
        · exact hp
        · exfalso
          have hp' : p a = false := eq_false_of_ne_true hp
          simp [hp', hq] at heq
          omega
      · exact ih (fun x hx hp => himp x (List.mem_cons_of_mem b hx) hp) hrest a ha2 hq

theorem relaxedIn_full (edges : List Edge) (P : List ℕ) (v : ℕ)
    (h : relaxedIn edges P v = inCount edges v) :
    ∀ e ∈ edges, e.dst = v → e.src ∈ P := by
  intro e he hdst
  unfold relaxedIn inCount at h
  have h2 := countP_eq_of_imp (fun e => decide (e.dst = v) && decide (e.src ∈ P))
    (fun e => decide (e.dst = v)) edges
    (by intro a _ hp
        simp only [Bool.and_eq_true, decide_eq_true_eq] at hp ⊢
        exact hp.1) h e he (by simp [hdst])
  simp only [Bool.and_eq_true, decide_eq_true_eq] at h2
  exact h2.2

theorem relaxedIn_of_all (edges : List Edge) (P : List ℕ) (v : ℕ)
    (h : ∀ e ∈ edges, e.dst = v → e.src ∈ P) :
    relaxedIn edges P v = inCount edges v := by
  unfold relaxedIn inCount
  apply List.countP_congr
  intro e he
  by_cases hdst : e.dst = v
  · simp [hdst, h e he hdst]
  · simp [hdst]

theorem outMult_cons_src (e : Edge) (rest : List Edge) (c v : ℕ) (hsrc : e.src = c) :
    outMult (e :: rest) c v = outMult rest c v + (if e.dst = v then 1 else 0) := by
  unfold outMult
  rw [List.countP_cons]
  by_cases hv : e.dst = v <;> simp [hsrc, hv]

theorem outMult_cons_nsrc (e : Edge) (rest : List Edge) (c v : ℕ) (hsrc : ¬ e.src = c) :
    outMult (e :: rest) c v = outMult rest c v := by
  unfold outMult
  rw [List.countP_cons]
  simp [hsrc]

/-- Behavior of the inner edge loop `relaxAll`: in-degrees drop by the
out-multiplicity from `c`, layers of `c`-targets rise to at least `cl + 1`,
`c`-targets become keys, and exactly the targets whose in-degree reaches 0
are appended to the queue (each once). -/
theorem relaxAll_spec (c cl : ℕ) (edges : List Edge) (t : KahnSt)
    (hbound : ∀ v, outMult edges c v ≤ t.indeg v) :
    (∀ v, (relaxAll c cl edges t).indeg v = t.indeg v - outMult edges c v) ∧
    (∀ v, (relaxAll c cl edges t).layers v =
      if 0 < outMult edges c v then max (t.layers v) (cl + 1) else t.layers v) ∧
    (∀ v, v ∈ (relaxAll c cl edges t).keys ↔ v ∈ t.keys ∨ 0 < outMult edges c v) ∧
    (t.keys.Nodup → (relaxAll c cl edges t).keys.Nodup) ∧
    (∃ newQ : List ℕ, (relaxAll c cl edges t).queue = t.queue ++ newQ ∧ newQ.Nodup ∧
      (∀ v, v ∈ newQ ↔ 0 < outMult edges c v ∧ t.indeg v = outMult edges c v)) ∧
    (relaxAll c cl edges t).processed = t.processed ∧
    (relaxAll c cl edges t).maxLayer = t.maxLayer := by
  induction edges generalizing t with
  | nil =>
      refine ⟨fun v => ?_, fun v => ?_, fun v => ?_, fun h => h, ⟨[], ?_, ?_, fun v => ?_⟩,
        rfl, rfl⟩
      · show t.indeg v = t.indeg v - outMult [] c v
        simp [outMult, List.countP_nil]
      · show t.layers v = if 0 < outMult [] c v then _ else t.layers v
        simp [outMult, List.countP_nil]
      · show v ∈ t.keys ↔ v ∈ t.keys ∨ 0 < outMult [] c v
        simp [outMult, List.countP_nil]
      · simp [relaxAll]
      · exact List.nodup_nil
      · simp [outMult, List.countP_nil]
  | cons e rest ih =>
      by_cases hsrc : e.src = c
      · have hmult : ∀ v, outMult (e :: rest) c v =
            outMult rest c v + (if e.dst = v then 1 else 0) :=
          fun v => outMult_cons_src e rest c v hsrc
        have hpos : 1 ≤ t.indeg e.dst := by
          have h1 := hbound e.dst
          have h2 := hmult e.dst
          simp at h2
          omega
        have heq : relaxAll c cl (e :: rest) t = relaxAll c cl rest
            { t with
              indeg := Function.update t.indeg e.dst (decWrap (t.indeg e.dst))
              layers := Function.update t.layers e.dst (max (t.layers e.dst) (cl + 1))
              keys := insertKey t.keys e.dst
              queue := if decWrap (t.indeg e.dst) = 0 then t.queue ++ [e.dst]
                       else t.queue } := by
          rw [relaxAll, if_pos hsrc]
        have hd : decWrap (t.indeg e.dst) = t.indeg e.dst - 1 := by
          unfold decWrap
          rw [if_neg (by omega)]
        have hbound1 : ∀ v, outMult rest c v ≤
            (Function.update t.indeg e.dst (decWrap (t.indeg e.dst))) v := by
          intro v
          rw [Function.update_apply]
          by_cases hv : v = e.dst
          · rw [if_pos hv, hd]
            have h1 := hbound v
            have h2 := hmult v
            rw [hv] at h1 h2 ⊢
            simp at h2
            omega
          · rw [if_neg hv]
            have h1 := hbound v
            have h2 := hmult v
            rw [if_neg (fun hh => hv hh.symm)] at h2
            omega
        obtain ⟨ih1, ih2, ih3, ih4, ⟨newQ2, ihq, ihnodup, ihchar⟩, ih6, ih7⟩ :=
          ih { t with
              indeg := Function.update t.indeg e.dst (decWrap (t.indeg e.dst))
              layers := Function.update t.layers e.dst (max (t.layers e.dst) (cl + 1))
              keys := insertKey t.keys e.dst
              queue := if decWrap (t.indeg e.dst) = 0 then t.queue ++ [e.dst]
                       else t.queue } hbound1
        rw [heq]
        refine ⟨fun v => ?_, fun v => ?_, fun v => ?_, fun h => ih4 (nodup_insertKey _ _ h),
          ?_, by rw [ih6], by rw [ih7]⟩
        · rw [ih1 v]
          simp only [Function.update_apply]
          by_cases hv : v = e.dst
          · rw [if_pos hv, hd]
            have h2 := hmult v
            rw [hv] at h2 ⊢
            simp at h2
            have h1 := hbound e.dst
            rw [h2]
            omega
          · rw [if_neg hv, hmult v, if_neg (fun hh => hv hh.symm), Nat.add_zero]
        · rw [ih2 v]
          simp only [Function.update_apply]
          by_cases hv : v = e.dst
          · rw [if_pos hv]
            have h2 := hmult v
            rw [hv] at h2 ⊢
            simp at h2
            rw [h2]
            have habs : max (max (t.layers e.dst) (cl + 1)) (cl + 1) =
                max (t.layers e.dst) (cl + 1) := by
              rw [max_assoc, max_self]
            by_cases hr : 0 < outMult rest c e.dst
            · rw [if_pos hr, if_pos (by omega), habs]
            · rw [if_neg hr, if_pos (by omega)]
          · rw [if_neg hv, hmult v,
              if_neg (show ¬ e.dst = v from fun hh => hv hh.symm)]
            norm_num
        · rw [ih3 v, mem_insertKey]
          have h2 := hmult v
          by_cases hv : e.dst = v
          · rw [if_pos hv] at h2
            constructor
            · rintro ((hk | he) | hr)
              · exact Or.inl hk
              · exact Or.inr (by omega)
              · exact Or.inr (by omega)
            · rintro (hk | hr)
              · exact Or.inl (Or.inl hk)
              · exact Or.inl (Or.inr hv.symm)
          · rw [if_neg hv] at h2
            constructor
            · rintro ((hk | he) | hr)
              · exact Or.inl hk
              · exact absurd he.symm hv
              · exact Or.inr (by omega)
            · rintro (hk | hr)
              · exact Or.inl (Or.inl hk)
              · exact Or.inr (by omega)
        · by_cases hd0 : decWrap (t.indeg e.dst) = 0
          · refine ⟨e.dst :: newQ2, ?_, ?_, fun v => ?_⟩
            · rw [ihq]
              simp only [if_pos hd0]
              rw [List.append_assoc]
              rfl
            · rw [List.nodup_cons]
              refine ⟨fun hmem => ?_, ihnodup⟩
              have h3 := (ihchar e.dst).mp hmem
              simp only [Function.update_same] at h3
              rw [hd0] at h3
              omega
            · have hi1 : t.indeg e.dst = 1 := by omega
              rw [List.mem_cons]
              constructor
              · rintro (rfl | hmem)
                · have h2 := hmult e.dst
                  simp at h2
                  have h1 := hbound e.dst
                  rw [h2] at h1 ⊢
                  omega
                · have h3 := (ihchar v).mp hmem
                  simp only [Function.update_apply] at h3
                  by_cases hv : v = e.dst
                  · rw [if_pos hv, hd] at h3
                    rw [hv]
                    have h2 := hmult e.dst
                    simp at h2
                    rw [h2]
                    omega
                  · rw [if_neg hv] at h3
                    have h2 := hmult v
                    rw [if_neg (fun hh => hv hh.symm)] at h2
                    rw [h2]
                    exact h3
              · intro hchar2
                by_cases hv : v = e.dst
                · exact Or.inl hv
                · refine Or.inr ((ihchar v).mpr ?_)
                  simp only [Function.update_apply, if_neg hv]
                  have h2 := hmult v
                  rw [if_neg (fun hh => hv hh.symm)] at h2
                  rw [h2] at hchar2
                  exact hchar2
          · refine ⟨newQ2, ?_, ihnodup, fun v => ?_⟩
            · rw [ihq]
              simp only [if_neg hd0]
            · rw [ihchar v]
              simp only [Function.update_apply]
              by_cases hv : v = e.dst
              · rw [if_pos hv, hd]
                have h2 := hmult v
                rw [hv] at h2 ⊢
                simp at h2
                rw [h2]
                have hne1 : t.indeg e.dst ≠ 1 := by
                  intro hh
                  rw [hd, hh] at hd0
                  exact hd0 rfl
                omega
              · rw [if_neg hv]
                have h2 := hmult v
                rw [if_neg (show ¬ e.dst = v from fun hh => hv hh.symm)] at h2
                rw [h2, Nat.add_zero]
      · have hmult : ∀ v, outMult (e :: rest) c v = outMult rest c v :=
          fun v => outMult_cons_nsrc e rest c v hsrc
        have heq : relaxAll c cl (e :: rest) t = relaxAll c cl rest t := by
          rw [relaxAll, if_neg hsrc]
        rw [heq]
        have hbound1 : ∀ v, outMult rest c v ≤ t.indeg v := by
          intro v
          rw [← hmult v]
          exact hbound v
        obtain ⟨ih1, ih2, ih3, ih4, ⟨newQ2, ihq, ihnodup, ihchar⟩, ih6, ih7⟩ :=
          ih t hbound1
        refine ⟨fun v => by rw [ih1 v, hmult v], fun v => by rw [ih2 v, hmult v],
          fun v => by rw [ih3 v, hmult v], ih4,
          ⟨newQ2, ihq, ihnodup, fun v => by rw [ihchar v, hmult v]⟩, ih6, ih7⟩

theorem relaxedIn_nil (edges : List Edge) (v : ℕ) : relaxedIn edges [] v = 0 := by
  unfold relaxedIn
  rw [List.countP_eq_zero]
  intro e _
  simp

theorem outMult_pos_iff (edges : List Edge) (c v : ℕ) :
    0 < outMult edges c v ↔ ∃ e ∈ edges, e.src = c ∧ e.dst = v := by
  unfold outMult
  rw [List.countP_pos]
  constructor
  · rintro ⟨e, he, hp⟩
    simp only [Bool.and_eq_true, decide_eq_true_eq] at hp
    exact ⟨e, he, hp⟩
  · rintro ⟨e, he, h1, h2⟩
    exact ⟨e, he, by simp [h1, h2]⟩

/-- The loop invariant of the Kahn sweep, over the ghost list `P` of popped
nodes in pop order (the C++ code keeps only the count `processed`). -/
structure KahnInv (g : Graph) (s : KahnSt) (P : List ℕ) : Prop where
  procLen : s.processed = P.length
  pNodup : P.Nodup
  pSub : ∀ v ∈ P, v ∈ g.ids
  qNodup : s.queue.Nodup
  qSub : ∀ v ∈ s.queue, v ∈ g.ids
  qDisjP : ∀ v ∈ s.queue, v ∉ P
  qZero : ∀ v ∈ s.queue, s.indeg v = 0
  indegEq : ∀ v, s.indeg v = inCount g.edges v - relaxedIn g.edges P v
  queueComplete : ∀ v ∈ g.ids, v ∉ P → v ∉ s.queue → s.indeg v ≠ 0
  poppedDone : ∀ v ∈ P, relaxedIn g.edges P v = inCount g.edges v
  edgeMono : ∀ e ∈ g.edges, e.src ∈ P → s.layers e.src + 1 ≤ s.layers e.dst
  keysQ : ∀ v ∈ s.queue, v ∈ s.keys
  keysP : ∀ v ∈ P, v ∈ s.keys
  keysSub : ∀ v ∈ s.keys, v ∈ g.ids
  keysNodup : s.keys.Nodup
  layerBound : ∀ v ∈ P, s.layers v ≤ s.maxLayer

theorem kahnInit_inv (g : Graph) (HN : g.idsNodup) (HE : g.endpointsExist) :
    KahnInv g (initSt g) [] := by
  have hqueue : (initSt g).queue = g.ids.filter (fun v => inCount g.edges v = 0) := rfl
  have hkeys : (initSt g).keys = g.ids.filter (fun v => inCount g.edges v = 0) := rfl
  have hindeg : ∀ v, (initSt g).indeg v = inCount g.edges v := fun v => rfl
  have hseedNodup : (g.ids.filter (fun v => inCount g.edges v = 0)).Nodup :=
    List.Nodup.filter _ HN
  have hseedSub : ∀ v ∈ g.ids.filter (fun v => inCount g.edges v = 0), v ∈ g.ids :=
    fun v hv => List.mem_of_mem_filter hv
  have hseedZero : ∀ v ∈ g.ids.filter (fun v => inCount g.edges v = 0),
      inCount g.edges v = 0 := by
    intro v hv
    simpa using List.of_mem_filter hv
  refine ⟨rfl, List.nodup_nil, ?_, ?_, ?_, ?_, ?_, ?_, ?_, ?_, ?_, ?_, ?_, ?_, ?_, ?_⟩
  · intro v hv
    exact absurd hv (List.not_mem_nil v)
  · rw [hqueue]
    exact hseedNodup
  · rw [hqueue]
    exact hseedSub
  · intro v _ hv
    exact absurd hv (List.not_mem_nil v)
  · intro v hv
    rw [hqueue] at hv
    rw [hindeg v]
    exact hseedZero v hv
  · intro v
    simp [hindeg v, relaxedIn_nil]
  · intro v hvids hvP hvq
    rw [hqueue] at hvq
    rw [hindeg v]
    intro h0
    exact hvq (List.mem_filter.mpr ⟨hvids, by simpa using h0⟩)
  · intro v hv
    exact absurd hv (List.not_mem_nil v)
  · intro e _ hsrc
    exact absurd hsrc (List.not_mem_nil _)
  · intro v hv
    rw [hqueue] at hv
    rw [hkeys]
    exact hv
  · intro v hv
    exact absurd hv (List.not_mem_nil v)
  · rw [hkeys]
    exact hseedSub
  · rw [hkeys]
    exact hseedNodup
  · intro v hv
    exact absurd hv (List.not_mem_nil v)

/-- One pop of the Kahn loop preserves the invariant, extending the popped
list by the popped node. -/
theorem kahnStep_inv (g : Graph) (HE : g.endpointsExist)
    (s : KahnSt) (P : List ℕ) (inv : KahnInv g s P)
    (c : ℕ) (rest : List ℕ) (hq : s.queue = c :: rest) :
    KahnInv g (relaxAll c (s.layers c) g.edges
      { s with queue := rest, processed := s.processed + 1,
               maxLayer := max s.maxLayer (s.layers c) }) (P ++ [c]) := by
  have hcq : c ∈ s.queue := by rw [hq]; exact List.mem_cons_self c rest
  have hcP : c ∉ P := inv.qDisjP c hcq
  have hcIds : c ∈ g.ids := inv.qSub c hcq
  have hcZero : s.indeg c = 0 := inv.qZero c hcq
  have hcFull : relaxedIn g.edges P c = inCount g.edges c := by
    have h1 := inv.indegEq c
    have h2 := relaxedIn_le_inCount g.edges P c
    omega
  have hcAllP : ∀ e ∈ g.edges, e.dst = c → e.src ∈ P :=
    relaxedIn_full g.edges P c hcFull
  have hcSelf : outMult g.edges c c = 0 := by
    by_contra h
    obtain ⟨e, he, hs, hdst⟩ := (outMult_pos_iff g.edges c c).mp (Nat.pos_of_ne_zero h)
    exact hcP (hs ▸ hcAllP e he hdst)
  have hPDoneMult : ∀ v ∈ P, outMult g.edges c v = 0 := by
    intro v hv
    by_contra h
    obtain ⟨e, he, hs, hdst⟩ := (outMult_pos_iff g.edges c v).mp (Nat.pos_of_ne_zero h)
    have := relaxedIn_full g.edges P v (inv.poppedDone v hv) e he hdst
    rw [hs] at this
    exact hcP this
  have hQmult : ∀ v ∈ rest, outMult g.edges c v = 0 := by
    intro v hv
    have hvq : v ∈ s.queue := by rw [hq]; exact List.mem_cons_of_mem c hv
    have hvZero : s.indeg v = 0 := inv.qZero v hvq
    have hvFull : relaxedIn g.edges P v = inCount g.edges v := by
      have h1 := inv.indegEq v
      have h2 := relaxedIn_le_inCount g.edges P v
      omega
    by_contra h
    obtain ⟨e, he, hs, hdst⟩ := (outMult_pos_iff g.edges c v).mp (Nat.pos_of_ne_zero h)
    have := relaxedIn_full g.edges P v hvFull e he hdst
    rw [hs] at this
    exact hcP this
  have hcRest : c ∉ rest := by
    have := inv.qNodup
    rw [hq] at this
    exact (List.nodup_cons.mp this).1
  have hrestNodup : rest.Nodup := by
    have := inv.qNodup
    rw [hq] at this
    exact (List.nodup_cons.mp this).2
  have hbound : ∀ v, outMult g.edges c v ≤
      ({ s with queue := rest, processed := s.processed + 1,
                maxLayer := max s.maxLayer (s.layers c) } : KahnSt).indeg v := by
    intro v
    show outMult g.edges c v ≤ s.indeg v
    have h1 := inv.indegEq v
    have h2 : relaxedIn g.edges (P ++ [c]) v ≤ inCount g.edges v :=
      relaxedIn_le_inCount g.edges (P ++ [c]) v
    rw [relaxedIn_append g.edges P c v hcP] at h2
    omega
  obtain ⟨R1, R2, R3, R4, ⟨newQ, hq2, hnodupQ, hchar⟩, R6, R7⟩ :=
    relaxAll_spec c (s.layers c) g.edges
      { s with queue := rest, processed := s.processed + 1,
               maxLayer := max s.maxLayer (s.layers c) } hbound
  simp only at R1 R2 R3 R4 hq2 hchar R6 R7
  have hnewQposMult : ∀ v ∈ newQ, 0 < outMult g.edges c v :=
    fun v hv => ((hchar v).mp hv).1
  have hnewQids : ∀ v ∈ newQ, v ∈ g.ids := by
    intro v hv
    obtain ⟨e, he, _, hdst⟩ := (outMult_pos_iff g.edges c v).mp (hnewQposMult v hv)
    exact hdst ▸ (HE e he).2
  have hnewQnotP : ∀ v ∈ newQ, v ∉ P := by
    intro v hv hvP
    have := hPDoneMult v hvP
    have := hnewQposMult v hv
    omega
  have hnewQnotc : ∀ v ∈ newQ, v ≠ c := by
    intro v hv hvc
    have := hnewQposMult v hv
    rw [hvc, hcSelf] at this
    omega
  have hnewQnotRest : ∀ v ∈ newQ, v ∉ rest := by
    intro v hv hvr
    have h1 := hQmult v hvr
    have h2 := hnewQposMult v hv
    omega
  have hmemP2 : ∀ v, v ∈ P ++ [c] ↔ v ∈ P ∨ v = c := by
    intro v
    simp [List.mem_append]
  refine ⟨?_, ?_, ?_, ?_, ?_, ?_, ?_, ?_, ?_, ?_, ?_, ?_, ?_, ?_, ?_, ?_⟩
  · rw [R6]
    show s.processed + 1 = (P ++ [c]).length
    rw [inv.procLen, List.length_append]
    rfl
  · rw [List.nodup_append]
    exact ⟨inv.pNodup, List.nodup_singleton c, by simpa using hcP⟩
  · intro v hv
    rcases (hmemP2 v).mp hv with hvP | rfl
    · exact inv.pSub v hvP
    · exact hcIds
  · rw [hq2]
    show (rest ++ newQ).Nodup
    rw [List.nodup_append]
    exact ⟨hrestNodup, hnodupQ, fun v hv hv2 => hnewQnotRest v hv2 hv⟩
  · intro v hv
    rw [hq2] at hv
    rcases List.mem_append.mp hv with hv | hv
    · exact inv.qSub v (by rw [hq]; exact List.mem_cons_of_mem c hv)
    · exact hnewQids v hv
  · intro v hv
    rw [hq2] at hv
    rw [hmemP2 v]
    rcases List.mem_append.mp hv with hv | hv
    · push_neg
      constructor
      · exact inv.qDisjP v (by rw [hq]; exact List.mem_cons_of_mem c hv)
      · intro hvc
        exact hcRest (hvc ▸ hv)
    · push_neg
      exact ⟨hnewQnotP v hv, hnewQnotc v hv⟩
  · intro v hv
    rw [hq2] at hv
    rw [R1 v]
    show s.indeg v - outMult g.edges c v = 0
    rcases List.mem_append.mp hv with hv | hv
    · have h1 := inv.qZero v (by rw [hq]; exact List.mem_cons_of_mem c hv)
      omega
    · have := (hchar v).mp hv
      simp only at this
      omega
  · intro v
    rw [R1 v]
    show s.indeg v - outMult g.edges c v =
      inCount g.edges v - relaxedIn g.edges (P ++ [c]) v
    rw [relaxedIn_append g.edges P c v hcP]
    have h1 := inv.indegEq v
    have h2 := relaxedIn_le_inCount g.edges (P ++ [c]) v
    rw [relaxedIn_append g.edges P c v hcP] at h2
    omega
  · intro v hvids hvP2 hvq2
    rw [R1 v]
    rw [hmemP2 v] at hvP2
    push_neg at hvP2
    rw [hq2] at hvq2
    have hvrest : v ∉ rest := fun hh => hvq2 (List.mem_append.mpr (Or.inl hh))
    have hvnew : v ∉ newQ := fun hh => hvq2 (List.mem_append.mpr (Or.inr hh))
    have hvq0 : v ∉ s.queue := by
      rw [hq]
      intro hh
      rcases List.mem_cons.mp hh with rfl | hh
      · exact hvP2.2 rfl
      · exact hvrest hh
    have h1 := inv.queueComplete v hvids hvP2.1 hvq0
    show s.indeg v - outMult g.edges c v ≠ 0
    intro h0
    have hb : outMult g.edges c v ≤ s.indeg v := hbound v
    by_cases hm : 0 < outMult g.edges c v
    · have h3 : v ∈ newQ := (hchar v).mpr
        ⟨hm, show s.indeg v = outMult g.edges c v by omega⟩
      exact hvnew h3
    · omega
  · intro v hv
    rcases (hmemP2 v).mp hv with hvP | hvc
    · rw [relaxedIn_append g.edges P c v hcP, hPDoneMult v hvP,
        inv.poppedDone v hvP]
      omega
    · rw [hvc, relaxedIn_append g.edges P c c hcP, hcSelf, hcFull]
      omega
  · intro e he hsrc
    rcases (hmemP2 e.src).mp hsrc with hsP | hsc
    · have hs0 : outMult g.edges c e.src = 0 := hPDoneMult e.src hsP
      rw [R2 e.src, R2 e.dst]
      simp only [hs0]
      rw [if_neg (by omega)]
      show s.layers e.src + 1 ≤ _
      have hbase := inv.edgeMono e he hsP
      by_cases hm : 0 < outMult g.edges c e.dst
      · rw [if_pos hm]
        exact le_trans hbase (le_max_left _ _)
      · rw [if_neg hm]
        exact hbase
    · rw [R2 e.src, R2 e.dst, hsc]
      simp only [hcSelf]
      rw [if_neg (by omega)]
      have hm : 0 < outMult g.edges c e.dst := by
        rw [outMult_pos_iff]
        exact ⟨e, he, hsc, rfl⟩
      rw [if_pos hm]
      show s.layers c + 1 ≤ max (s.layers e.dst) (s.layers c + 1)
      exact le_max_right _ _
  · intro v hv
    rw [hq2] at hv
    rw [R3 v]
    rcases List.mem_append.mp hv with hv | hv
    · exact Or.inl (inv.keysQ v (by rw [hq]; exact List.mem_cons_of_mem c hv))
    · exact Or.inr (hnewQposMult v hv)
  · intro v hv
    rw [R3 v]
    rcases (hmemP2 v).mp hv with hvP | hvc
    · exact Or.inl (inv.keysP v hvP)
    · exact Or.inl (hvc ▸ inv.keysQ c hcq)
  · intro v hv
    rcases (R3 v).mp hv with hv | hv
    · exact inv.keysSub v hv
    · obtain ⟨e, he, _, hdst⟩ := (outMult_pos_iff g.edges c v).mp hv
      exact hdst ▸ (HE e he).2
  · exact R4 inv.keysNodup
  · intro v hv
    rw [R2 v, R7]
    show _ ≤ max s.maxLayer (s.layers c)
    rcases (hmemP2 v).mp hv with hvP | hvc
    · rw [hPDoneMult v hvP]
      rw [if_neg (by omega)]
      exact le_trans (inv.layerBound v hvP) (le_max_left _ _)
    · rw [hvc, hcSelf, if_neg (by omega)]
      exact le_max_right _ _

/-- The Kahn loop maintains the invariant and, with enough fuel, drains the
queue: each unit of fuel performs one pop and pops are pairwise-distinct
graph nodes. -/
theorem kahnLoop_inv (g : Graph) (HE : g.endpointsExist) :
    ∀ (fuel : ℕ) (s : KahnSt) (P : List ℕ), KahnInv g s P →
      g.ids.length < P.length + fuel →
      ∃ Q : List ℕ, KahnInv g (kahnLoop g.edges fuel s) Q ∧
        (kahnLoop g.edges fuel s).queue = [] := by
  intro fuel
  induction fuel with
  | zero =>
      intro s P inv hlen
      exfalso
      have hsub : P.Subperm g.ids := List.subperm_of_subset inv.pNodup inv.pSub
      have := hsub.length_le
      omega
  | succ fuel ih =>
      intro s P inv hlen
      cases hq : s.queue with
      | nil =>
          have heq : kahnLoop g.edges (fuel + 1) s = s := by
            rw [kahnLoop, hq]
          rw [heq]
          exact ⟨P, inv, hq⟩
      | cons c rest =>
          have heq : kahnLoop g.edges (fuel + 1) s =
              kahnLoop g.edges fuel (relaxAll c (s.layers c) g.edges
                { s with queue := rest, processed := s.processed + 1,
                         maxLayer := max s.maxLayer (s.layers c) }) := by
            rw [kahnLoop, hq]
          rw [heq]
          have inv2 := kahnStep_inv g HE s P inv c rest hq
          have hlen2 : g.ids.length < (P ++ [c]).length + fuel := by
            rw [List.length_append]
            simp only [List.length_singleton]
            omega
          exact ih _ _ inv2 hlen2

/-- The sweep's fuel `nodes + edges + 1` is enough: the final state satisfies
the invariant with an empty queue. -/
theorem runKahn_spec (g : Graph) (HN : g.idsNodup) (HE : g.endpointsExist) :
    ∃ Q : List ℕ, KahnInv g (runKahn g) Q ∧ (runKahn g).queue = [] := by
  have hids : g.ids.length = g.nodes.length := by simp [Graph.ids]
  apply kahnLoop_inv g HE (g.nodes.length + g.edges.length + 1) (initSt g) []
    (kahnInit_inv g HN HE)
  simp only [List.length_nil]
  omega

/-- On success (all nodes processed), the layer values strictly increase
along every edge, and every node is a key with a layer value bounded by
`max_layer`. -/
theorem runKahn_success (g : Graph) (HN : g.idsNodup) (HE : g.endpointsExist)
    (hp : (runKahn g).processed = g.nodes.length) :
    (∀ e ∈ g.edges, (runKahn g).layers e.src + 1 ≤ (runKahn g).layers e.dst) ∧
    (∀ v ∈ g.ids, v ∈ (runKahn g).keys ∧
      (runKahn g).layers v ≤ (runKahn g).maxLayer) := by
  obtain ⟨Q, inv, hqe⟩ := runKahn_spec g HN HE
  have hidslen : g.ids.length = g.nodes.length := by simp [Graph.ids]
  have hQlen : Q.length = g.ids.length := by
    have h1 := inv.procLen
    omega
  have hsub : Q.Subperm g.ids := List.subperm_of_subset inv.pNodup inv.pSub
  have hperm : Q.Perm g.ids := hsub.perm_of_length_le (by omega)
  have hmem : ∀ v ∈ g.ids, v ∈ Q := fun v hv => hperm.mem_iff.mpr hv
  constructor
  · intro e he
    exact inv.edgeMono e he (hmem e.src (HE e he).1)
  · intro v hv
    exact ⟨inv.keysP v (hmem v hv), inv.layerBound v (hmem v hv)⟩

theorem pathLe_succ (g : Graph) :
    ∀ (k : ℕ) (u v : ℕ), pathLe g k u v = true → pathLe g (k + 1) u v = true := by
  intro k
  induction k with
  | zero =>
      intro u v h
      rw [pathLe] at h
      exact Bool.noConfusion h
  | succ k ih =>
      intro u v h
      rw [pathLe] at h ⊢
      rw [Bool.or_eq_true] at h ⊢
      rcases h with hstep | hany
      · exact Or.inl hstep
      · right
        rw [List.any_eq_true] at hany ⊢
        obtain ⟨x, hx, hpx⟩ := hany
        rw [Bool.and_eq_true] at hpx
        refine ⟨x, hx, ?_⟩
        rw [Bool.and_eq_true]
        exact ⟨hpx.1, ih x v hpx.2⟩

theorem pathLe_mono (g : Graph) (u v : ℕ) (k k2 : ℕ) (hk : k ≤ k2)
    (h : pathLe g k u v = true) : pathLe g k2 u v = true := by
  induction k2, hk using Nat.le_induction with
  | base => exact h
  | succ k2 hk2 ih => exact pathLe_succ g k2 u v ih

/-- A backward-edge walk yields bounded forward paths between repeated
points. -/
theorem pathLe_of_walk (g : Graph) (w : ℕ → ℕ)
    (hstep : ∀ k, stepEdge g (w (k + 1)) (w k) = true)
    (hin : ∀ k, w k ∈ g.ids) :
    ∀ (d i : ℕ), pathLe g (d + 1) (w (i + d + 1)) (w i) = true := by
  intro d
  induction d with
  | zero =>
      intro i
      rw [pathLe, Bool.or_eq_true]
      exact Or.inl (hstep i)
  | succ d ih =>
      intro i
      rw [pathLe, Bool.or_eq_true]
      right
      rw [List.any_eq_true]
      refine ⟨w (i + d + 1), hin _, ?_⟩
      rw [Bool.and_eq_true]
      refine ⟨?_, ih i⟩
      have hidx : i + (d + 1) + 1 = (i + d + 1) + 1 := by omega
      rw [hidx]
      exact hstep (i + d + 1)

/-- Completeness of the cycle check on well-formed graphs: if the edge
relation of the nodes is acyclic, the sweep processes every node. -/
theorem runKahn_complete (g : Graph) (HN : g.idsNodup) (HE : g.endpointsExist)
    (hA : Acyclic g) : (runKahn g).processed = g.nodes.length := by
  obtain ⟨Q, inv, hqe⟩ := runKahn_spec g HN HE
  have hidslen : g.ids.length = g.nodes.length := by simp [Graph.ids]
  by_contra hne
  have hsub : Q.Subperm g.ids := List.subperm_of_subset inv.pNodup inv.pSub
  have hQle : Q.length ≤ g.ids.length := hsub.length_le
  have hstep : ∀ v, v ∈ g.ids → v ∉ Q →
      ∃ u, u ∈ g.ids ∧ u ∉ Q ∧ stepEdge g u v = true := by
    intro v hv hvQ
    have hne0 := inv.queueComplete v hv hvQ (by rw [hqe]; exact List.not_mem_nil v)
    have h1 := inv.indegEq v
    have h2 := relaxedIn_le_inCount g.edges Q v
    have hneq : relaxedIn g.edges Q v ≠ inCount g.edges v := by omega
    by_contra hc
    push_neg at hc
    apply hneq
    apply relaxedIn_of_all
    intro e he hdst
    by_contra hsrcQ
    have hsrcIds : e.src ∈ g.ids := (HE e he).1
    have hstepT : stepEdge g e.src v = true := by
      rw [stepEdge, List.any_eq_true]
      exact ⟨e, he, by simp [hdst]⟩
    have := hc e.src hsrcIds hsrcQ
    rw [hstepT] at this
    exact this rfl
  have hstart : ∃ v, v ∈ g.ids ∧ v ∉ Q := by
    by_contra hall
    push_neg at hall
    have hsub2 : g.ids.Subperm Q := List.subperm_of_subset HN hall
    have := hsub2.length_le
    have := inv.procLen
    omega
  obtain ⟨v0, hv0ids, hv0Q⟩ := hstart
  have hstepT : ∀ t : {v : ℕ // v ∈ g.ids ∧ v ∉ Q},
      ∃ t2 : {v : ℕ // v ∈ g.ids ∧ v ∉ Q}, stepEdge g t2.1 t.1 = true := by
    rintro ⟨v, hv, hvq⟩
    obtain ⟨u, hu1, hu2, hu3⟩ := hstep v hv hvq
    exact ⟨⟨u, hu1, hu2⟩, hu3⟩
  choose nxt hnxt using hstepT
  let w : ℕ → {v : ℕ // v ∈ g.ids ∧ v ∉ Q} :=
    fun k => Nat.rec ⟨v0, hv0ids, hv0Q⟩ (fun _ t => nxt t) k
  have hwstep : ∀ k, stepEdge g (w (k + 1)).1 (w k).1 = true := fun k => hnxt (w k)
  have hwin : ∀ k, (w k).1 ∈ g.ids := fun k => (w k).2.1
  have hmaps : ∀ k ∈ Finset.range (g.ids.length + 1),
      (w k).1 ∈ g.ids.toFinset := by
    intro k _
    rw [List.mem_toFinset]
    exact hwin k
  have hcard : g.ids.toFinset.card < (Finset.range (g.ids.length + 1)).card := by
    rw [Finset.card_range]
    have := List.toFinset_card_le g.ids
    omega
  obtain ⟨i, hi, j, hj, hij, hweq⟩ :=
    Finset.exists_ne_map_eq_of_card_lt_of_maps_to hcard hmaps
  have hab : ∃ a b, a < b ∧ b ≤ g.ids.length ∧ (w a).1 = (w b).1 := by
    rcases Nat.lt_trichotomy i j with h | h | h
    · exact ⟨i, j, h, by have := Finset.mem_range.mp hj; omega, hweq⟩
    · exact absurd h hij
    · exact ⟨j, i, h, by have := Finset.mem_range.mp hi; omega, hweq.symm⟩
  obtain ⟨a, b, hab1, hab2, hab3⟩ := hab
  have hpath := pathLe_of_walk g (fun k => (w k).1) hwstep hwin (b - a - 1) a
  have hidx : a + (b - a - 1) + 1 = b := by omega
  rw [hidx] at hpath
  rw [← hab3] at hpath
  have hcycle : pathLe g g.nodes.length (w a).1 (w a).1 = true := by
    apply pathLe_mono g _ _ (b - a - 1 + 1) g.nodes.length (by omega) hpath
  have htrue : hasCycleBool g = true := by
    rw [hasCycleBool, List.any_eq_true]
    exact ⟨(w a).1, hwin a, hcycle⟩
  rw [hA] at htrue
  exact Bool.noConfusion htrue

/-! ### Phase 2 preserves each layer as a permutation -/

/-- Pointwise permutation of the per-layer node lists. -/
def PtwisePerm (l1 l2 : List (List ℕ)) : Prop :=
  l1.length = l2.length ∧ ∀ i, (l1.getD i []).Perm (l2.getD i [])

theorem ptwisePerm_refl (l : List (List ℕ)) : PtwisePerm l l :=
  ⟨rfl, fun _ => List.Perm.refl _⟩

theorem ptwisePerm_trans {l1 l2 l3 : List (List ℕ)}
    (h1 : PtwisePerm l1 l2) (h2 : PtwisePerm l2 l3) : PtwisePerm l1 l3 :=
  ⟨h1.1.trans h2.1, fun i => (h1.2 i).trans (h2.2 i)⟩

theorem getD_set_perm (ll : List (List ℕ)) (idx : ℕ) (nw : List ℕ)
    (hperm : nw.Perm (ll.getD idx [])) :
    PtwisePerm ll (ll.set idx nw) := by
  refine ⟨(List.length_set ll idx nw).symm, fun i => ?_⟩
  by_cases hi : i < ll.length
  · have hi2 : i < (ll.set idx nw).length := by rw [List.length_set]; exact hi
    rw [List.getD_eq_getElem?_getD, List.getD_eq_getElem?_getD,
      List.getElem?_eq_getElem hi, List.getElem?_eq_getElem hi2]
    simp only [Option.getD_some]
    rw [List.getElem_set]
    by_cases he : idx = i
    · rw [if_pos he]
      subst he
      have : ll.getD idx [] = ll[idx] := by
        rw [List.getD_eq_getElem?_getD, List.getElem?_eq_getElem hi]
        rfl
      rw [this] at hperm
      exact hperm.symm
    · rw [if_neg he]
  · have hi2 : ¬ i < (ll.set idx nw).length := by rw [List.length_set]; exact hi
    rw [List.getD_eq_getElem?_getD, List.getD_eq_getElem?_getD,
      List.getElem?_eq_none (by omega), List.getElem?_eq_none (by rw [List.length_set]; omega)]

theorem reorderLayer_ptwise (edges : List Edge) (L : ℕ → ℕ)
    (ll : List (List ℕ)) (idx : ℕ) (fwd : Bool) :
    PtwisePerm ll (reorderLayer edges L ll idx fwd).1 := by
  unfold reorderLayer
  by_cases h1 : idx < ll.length
  · rw [if_pos h1]
    by_cases h2 : (ll.getD idx []).length ≤ 1
    · rw [if_pos h2]
      exact ptwisePerm_refl ll
    · rw [if_neg h2]
      simp only
      apply getD_set_perm
      have hperm : (List.insertionSort pairLE
          ((ll.getD idx []).map (fun v => (calculateBarycenter edges L ll v fwd, v)))).Perm
          ((ll.getD idx []).map (fun v => (calculateBarycenter edges L ll v fwd, v))) :=
        List.perm_insertionSort pairLE _
      have := hperm.map Prod.snd
      rw [List.map_map] at this
      have h3 : ((fun p : ℚ × ℕ => p.2) ∘
          (fun v => (calculateBarycenter edges L ll v fwd, v))) = id := rfl
      rw [h3, List.map_id] at this
      exact this
  · rw [if_neg h1]
    exact ptwisePerm_refl ll

theorem foldl_reorder_ptwise (edges : List Edge) (L : ℕ → ℕ) (fwd : Bool)
    (idxs : List ℕ) :
    ∀ (acc : List (List ℕ) × Bool),
      PtwisePerm acc.1 ((idxs.foldl (fun acc i =>
        ((reorderLayer edges L acc.1 i fwd).1,
          acc.2 || (reorderLayer edges L acc.1 i fwd).2)) acc)).1 := by
  induction idxs with
  | nil => intro acc; exact ptwisePerm_refl acc.1
  | cons i rest ih =>
      intro acc
      simp only [List.foldl_cons]
      exact ptwisePerm_trans (reorderLayer_ptwise edges L acc.1 i fwd)
        (ih ((reorderLayer edges L acc.1 i fwd).1,
          acc.2 || (reorderLayer edges L acc.1 i fwd).2))

theorem crossingForward_ptwise (edges : List Edge) (L : ℕ → ℕ)
    (ll : List (List ℕ)) : PtwisePerm ll (crossingForward edges L ll).1 := by
  unfold crossingForward
  have h := foldl_reorder_ptwise edges L true (List.range' 1 (ll.length - 1)) (ll, false)
  convert h using 2

theorem crossingBackward_ptwise (edges : List Edge) (L : ℕ → ℕ)
    (st : List (List ℕ) × Bool) : PtwisePerm st.1 (crossingBackward edges L st).1 := by
  unfold crossingBackward
  have h := foldl_reorder_ptwise edges L false
    ((List.range (st.1.length - 1)).reverse) st
  convert h using 2

theorem reduceCrossingsLoop_ptwise (edges : List Edge) (L : ℕ → ℕ) :
    ∀ (n : ℕ) (ll : List (List ℕ)),
      PtwisePerm ll (reduceCrossingsLoop edges L n ll) := by
  intro n
  induction n with
  | zero => intro ll; exact ptwisePerm_refl ll
  | succ n ih =>
      intro ll
      rw [reduceCrossingsLoop]
      have h1 := crossingForward_ptwise edges L ll
      have h2 := crossingBackward_ptwise edges L (crossingForward edges L ll)
      by_cases hb : (crossingBackward edges L (crossingForward edges L ll)).2
      · rw [if_pos hb]
        exact ptwisePerm_trans (ptwisePerm_trans h1 h2)
          (ih (crossingBackward edges L (crossingForward edges L ll)).1)
      · rw [if_neg hb]
        exact ptwisePerm_trans h1 h2

theorem reduceCrossings_ptwise (edges : List Edge) (L : ℕ → ℕ)
    (ll : List (List ℕ)) (cfg : LayoutConfig) :
    PtwisePerm ll (reduceCrossings edges L ll cfg) :=
  reduceCrossingsLoop_ptwise edges L (toSizeT (cfg.iterations / 4)) ll

/-! ### Phase 3: coordinate assignment -/

/-- The size stored for an id (used to show the layer heights are not
affected by position updates). -/
def sizeAt (g : Graph) (v : ℕ) : Option Pt := (getNode? g v).map Node.size

theorem getNode?_update (g : Graph) (u : ℕ) (p : Pt) (v : ℕ) :
    getNode? (updateNodePosition g u p) v = (getNode? g v).map
      (fun nd => if nd.id = u then { nd with position := p } else nd) := by
  unfold getNode? updateNodePosition
  simp only
  rw [List.find?_map]
  have hpred : ((fun nd : Node => decide (nd.id = v)) ∘
      (fun nd : Node => if nd.id = u then { nd with position := p } else nd)) =
      (fun nd : Node => decide (nd.id = v)) := by
    funext nd
    by_cases h : nd.id = u <;> simp [h]
  rw [hpred]

theorem getNode?_id (g : Graph) (v : ℕ) (nd : Node) (h : getNode? g v = some nd) :
    nd.id = v := by
  have := List.find?_some h
  simpa using this

theorem getNode?_update_ne (g : Graph) (u : ℕ) (p : Pt) (v : ℕ) (hne : v ≠ u) :
    getNode? (updateNodePosition g u p) v = getNode? g v := by
  rw [getNode?_update]
  cases hf : getNode? g v with
  | none => rfl
  | some nd =>
      have hid := getNode?_id g v nd hf
      simp [hid, hne]

theorem getNode?_update_self (g : Graph) (u : ℕ) (p : Pt) :
    getNode? (updateNodePosition g u p) u = (getNode? g u).map
      (fun nd => { nd with position := p }) := by
  rw [getNode?_update]
  cases hf : getNode? g u with
  | none => rfl
  | some nd =>
      have hid := getNode?_id g u nd hf
      simp [hid]

theorem sizeAt_update (g : Graph) (u : ℕ) (p : Pt) (v : ℕ) :
    sizeAt (updateNodePosition g u p) v = sizeAt g v := by
  unfold sizeAt
  rw [getNode?_update]
  cases getNode? g v with
  | none => rfl
  | some nd =>
      by_cases h : nd.id = u <;> simp [h]

theorem placeLayerGo_sizeAt (cfg : LayoutConfig) (y : ℚ) :
    ∀ (layer : List ℕ) (g : Graph) (x : ℚ) (v : ℕ),
      sizeAt (placeLayerGo cfg y layer g x) v = sizeAt g v := by
  intro layer
  induction layer with
  | nil => intro g x v; rfl
  | cons u rest ih =>
      intro g x v
      rw [placeLayerGo]
      cases hu : getNode? g u with
      | none => exact ih g x v
      | some nd => rw [ih, sizeAt_update]

theorem placeLayerGo_not_mem (cfg : LayoutConfig) (y : ℚ) :
    ∀ (layer : List ℕ) (g : Graph) (x : ℚ) (v : ℕ), v ∉ layer →
      getNode? (placeLayerGo cfg y layer g x) v = getNode? g v := by
  intro layer
  induction layer with
  | nil => intro g x v _; rfl
  | cons u rest ih =>
      intro g x v hv
      have hvu : v ≠ u := fun h => hv (h ▸ List.mem_cons_self u rest)
      have hvr : v ∉ rest := fun h => hv (List.mem_cons_of_mem u h)
      rw [placeLayerGo]
      cases hu : getNode? g u with
      | none => exact ih g x v hvr
      | some nd => rw [ih _ _ _ hvr, getNode?_update_ne g u _ v hvu]

theorem placeLayerGo_mem_y (cfg : LayoutConfig) (y : ℚ) :
    ∀ (layer : List ℕ) (g : Graph) (x : ℚ) (v : ℕ), v ∈ layer → layer.Nodup →
      (getNode? g v).isSome →
      (getNode? (placeLayerGo cfg y layer g x) v).map (fun nd => nd.position.y) =
        some y := by
  intro layer
  induction layer with
  | nil => intro g x v hv; exact absurd hv (List.not_mem_nil v)
  | cons u rest ih =>
      intro g x v hv hnodup hsome
      rcases List.mem_cons.mp hv with rfl | hvr
      · obtain ⟨nd, hnd⟩ := Option.isSome_iff_exists.mp hsome
        rw [placeLayerGo, hnd]
        have hnotr : v ∉ rest := (List.nodup_cons.mp hnodup).1
        rw [placeLayerGo_not_mem cfg y rest _ _ v hnotr]
        rw [getNode?_update_self, hnd]
        rfl
      · have hru : rest.Nodup := (List.nodup_cons.mp hnodup).2
        rw [placeLayerGo]
        cases hu : getNode? g u with
        | none => exact ih g x v hvr hru hsome
        | some nd =>
            apply ih _ _ v hvr hru
            by_cases hvu : v = u
            · subst hvu
              rw [getNode?_update_self, hu]
              rfl
            · rw [getNode?_update_ne g u _ v hvu]
              exact hsome

theorem maxHeightInLayer_congr (g1 g2 : Graph)
    (h : ∀ v, sizeAt g1 v = sizeAt g2 v) (layer : List ℕ) :
    maxHeightInLayer g1 layer = maxHeightInLayer g2 layer := by
  unfold maxHeightInLayer
  have hfold : ∀ (acc : ℚ), layer.foldl (fun acc v =>
      match getNode? g1 v with
      | some nd => max acc nd.size.y
      | none => acc) acc = layer.foldl (fun acc v =>
      match getNode? g2 v with
      | some nd => max acc nd.size.y
      | none => acc) acc := by
    induction layer with
    | nil => intro acc; rfl
    | cons u rest ih =>
        intro acc
        simp only [List.foldl_cons]
        have hu := h u
        unfold sizeAt at hu
        cases h1 : getNode? g1 u with
        | none =>
            cases h2 : getNode? g2 u with
            | none => exact ih acc
            | some nd2 => rw [h1, h2] at hu; exact absurd hu (by simp)
        | some nd1 =>
            cases h2 : getNode? g2 u with
            | none => rw [h1, h2] at hu; exact absurd hu (by simp)
            | some nd2 =>
                rw [h1, h2] at hu
                simp only [Option.map_some', Option.some.injEq] at hu
                have h3 : nd1.size.y = nd2.size.y := by rw [hu]
                show List.foldl _ (max acc nd1.size.y) rest =
                  List.foldl _ (max acc nd2.size.y) rest
                rw [h3]
                exact ih _
  rw [hfold 0]

theorem maxHeightInLayer_pos (g : Graph) (layer : List ℕ) :
    0 < maxHeightInLayer g layer := by
  unfold maxHeightInLayer
  by_cases h : 0 < layer.foldl (fun acc v =>
      match getNode? g v with
      | some nd => max acc nd.size.y
      | none => acc) 0
  · rw [if_pos h]; exact h
  · rw [if_neg h]; norm_num

/-- The vertical offset accumulated by `assignCoordinates` before reaching
layer `k` (heights measured on the initial graph; sizes never change). -/
def yOffset (cfg : LayoutConfig) (g : Graph) : List (List ℕ) → ℕ → ℚ
  | _, 0 => 0
  | [], _ + 1 => 0
  | layer :: rest, k + 1 =>
      maxHeightInLayer g layer + cfg.layerSpacing + yOffset cfg g rest k

theorem yOffset_congr (cfg : LayoutConfig) (g1 g2 : Graph)
    (h : ∀ v, sizeAt g1 v = sizeAt g2 v) :
    ∀ (ll : List (List ℕ)) (k : ℕ), yOffset cfg g1 ll k = yOffset cfg g2 ll k := by
  intro ll
  induction ll with
  | nil => intro k; cases k <;> rfl
  | cons layer rest ih =>
      intro k
      cases k with
      | zero => rfl
      | succ k =>
          rw [yOffset, yOffset, maxHeightInLayer_congr g1 g2 h layer, ih k]

theorem yOffset_nonneg (cfg : LayoutConfig) (g : Graph) (hLS : 0 ≤ cfg.layerSpacing) :
    ∀ (ll : List (List ℕ)) (k : ℕ), 0 ≤ yOffset cfg g ll k := by
  intro ll
  induction ll with
  | nil => intro k; cases k <;> norm_num [yOffset]
  | cons layer rest ih =>
      intro k
      cases k with
      | zero => norm_num [yOffset]
      | succ k =>
          rw [yOffset]
          have h1 := maxHeightInLayer_pos g layer
          have h2 := ih k
          linarith

theorem yOffset_strict (cfg : LayoutConfig) (g : Graph) (hLS : 0 ≤ cfg.layerSpacing) :
    ∀ (ll : List (List ℕ)) (k1 k2 : ℕ), k1 < k2 → k2 < ll.length →
      yOffset cfg g ll k1 < yOffset cfg g ll k2 := by
  intro ll
  induction ll with
  | nil => intro k1 k2 _ h2; simp at h2
  | cons layer rest ih =>
      intro k1 k2 h12 h2
      cases k2 with
      | zero => omega
      | succ k2 =>
          cases k1 with
          | zero =>
              rw [yOffset, yOffset]
              have h1 := maxHeightInLayer_pos g layer
              have h3 := yOffset_nonneg cfg g hLS rest k2
              linarith
          | succ k1 =>
              rw [yOffset, yOffset]
              have := ih k1 k2 (by omega) (by simpa using h2)
              linarith

theorem assignCoordinatesGo_sizeAt (cfg : LayoutConfig) :
    ∀ (ll : List (List ℕ)) (g : Graph) (y : ℚ) (v : ℕ),
      sizeAt (assignCoordinatesGo cfg ll g y) v = sizeAt g v := by
  intro ll
  induction ll with
  | nil => intro g y v; rfl
  | cons layer rest ih =>
      intro g y v
      have hstep : assignCoordinatesGo cfg (layer :: rest) g y =
          assignCoordinatesGo cfg rest (placeLayer cfg g y layer)
            (y + maxHeightInLayer (placeLayer cfg g y layer) layer +
              cfg.layerSpacing) := rfl
      rw [hstep, ih]
      exact placeLayerGo_sizeAt cfg y layer g cfg.marginX v

theorem assignCoordinatesGo_not_mem (cfg : LayoutConfig) :
    ∀ (ll : List (List ℕ)) (g : Graph) (y : ℚ) (v : ℕ),
      (∀ layer ∈ ll, v ∉ layer) →
      getNode? (assignCoordinatesGo cfg ll g y) v = getNode? g v := by
  intro ll
  induction ll with
  | nil => intro g y v _; rfl
  | cons layer rest ih =>
      intro g y v hv
      have hstep : assignCoordinatesGo cfg (layer :: rest) g y =
          assignCoordinatesGo cfg rest (placeLayer cfg g y layer)
            (y + maxHeightInLayer (placeLayer cfg g y layer) layer +
              cfg.layerSpacing) := rfl
      rw [hstep, ih _ _ _ (fun l hl => hv l (List.mem_cons_of_mem layer hl))]
      exact placeLayerGo_not_mem cfg y layer g cfg.marginX v
        (hv layer (List.mem_cons_self layer rest))

theorem assignCoordinatesGo_posY (cfg : LayoutConfig) :
    ∀ (ll : List (List ℕ)) (g : Graph) (y : ℚ) (k : ℕ) (v : ℕ),
      k < ll.length → v ∈ ll.getD k [] →
      (∀ j, j < ll.length → j ≠ k → v ∉ ll.getD j []) →
      (ll.getD k []).Nodup →
      (getNode? g v).isSome →
      (getNode? (assignCoordinatesGo cfg ll g y) v).map (fun nd => nd.position.y) =
        some (y + yOffset cfg g ll k) := by
  intro ll
  induction ll with
  | nil => intro g y k v hk; simp at hk
  | cons layer rest ih =>
      intro g y k v hk hv hdisj hnodup hsome
      cases k with
      | zero =>
          have hvl : v ∈ layer := by simpa using hv
          have hnotrest : ∀ l ∈ rest, v ∉ l := by
            intro l hl
            obtain ⟨j, hj, hlj⟩ := List.getElem_of_mem hl
            have := hdisj (j + 1) (by simpa using Nat.succ_lt_succ hj) (by omega)
            have hget : (layer :: rest).getD (j + 1) [] = l := by
              rw [List.getD_cons_succ, List.getD_eq_getElem?_getD,
                List.getElem?_eq_getElem hj, hlj]
              rfl
            rwa [hget] at this
          have hstep : assignCoordinatesGo cfg (layer :: rest) g y =
              assignCoordinatesGo cfg rest (placeLayer cfg g y layer)
                (y + maxHeightInLayer (placeLayer cfg g y layer) layer +
                  cfg.layerSpacing) := rfl
          rw [hstep, assignCoordinatesGo_not_mem cfg rest _ _ v hnotrest]
          have h1 := placeLayerGo_mem_y cfg y layer g cfg.marginX v hvl
            (by simpa using hnodup) hsome
          rw [show yOffset cfg g (layer :: rest) 0 = 0 from rfl, add_zero]
          exact h1
      | succ k =>
          have hvnl : v ∉ layer := by
            have := hdisj 0 (by simp) (by omega)
            simpa using this
          have hvr : v ∈ rest.getD k [] := by
            rwa [List.getD_cons_succ] at hv
          have hstep : assignCoordinatesGo cfg (layer :: rest) g y =
              assignCoordinatesGo cfg rest (placeLayer cfg g y layer)
                (y + maxHeightInLayer (placeLayer cfg g y layer) layer +
                  cfg.layerSpacing) := rfl
          rw [hstep]
          have hszEq : ∀ u, sizeAt (placeLayer cfg g y layer) u = sizeAt g u :=
            fun u => placeLayerGo_sizeAt cfg y layer g cfg.marginX u
          have hsome2 : (getNode? (placeLayer cfg g y layer) v).isSome := by
            unfold placeLayer
            rw [placeLayerGo_not_mem cfg y layer g cfg.marginX v hvnl]
            exact hsome
          have hdisj2 : ∀ j, j < rest.length → j ≠ k → v ∉ rest.getD j [] := by
            intro j hj hjk
            have := hdisj (j + 1) (by simpa using Nat.succ_lt_succ hj) (by omega)
            rwa [List.getD_cons_succ] at this
          have hnodup2 : (rest.getD k []).Nodup := by
            rwa [List.getD_cons_succ] at hnodup
          have hk2 : k < rest.length := by simpa using hk
          have h1 := ih (placeLayer cfg g y layer)
            (y + maxHeightInLayer (placeLayer cfg g y layer) layer + cfg.layerSpacing)
            k v hk2 hvr hdisj2 hnodup2 hsome2
          rw [h1]
          congr 1
          rw [yOffset]
          rw [maxHeightInLayer_congr (placeLayer cfg g y layer) g hszEq layer]
          rw [yOffset_congr cfg (placeLayer cfg g y layer) g hszEq rest k]
          ring

/-! ### Assembly: the success path of `hierApply` (claims C1 and C2) -/

instance (g : Graph) : Decidable g.idsNodup := by
  unfold Graph.idsNodup
  infer_instance

instance (g : Graph) : Decidable g.endpointsExist := by
  unfold Graph.endpointsExist
  infer_instance

instance (g : Graph) : Decidable (Acyclic g) := by
  unfold Acyclic
  infer_instance

theorem getNode?_isSome_of_mem (g : Graph) (v : ℕ) (hv : v ∈ g.ids) :
    (getNode? g v).isSome := by
  unfold Graph.ids at hv
  rw [List.mem_map] at hv
  obtain ⟨nd, hnd, hid⟩ := hv
  unfold getNode?
  rw [List.find?_isSome]
  exact ⟨nd, hnd, by simp [hid]⟩

theorem posYOf_eq_of_getNode (g : Graph) (v : ℕ) (nd : Node)
    (h : getNode? g v = some nd) : posYOf g v = nd.position.y := by
  unfold posYOf
  rw [h]

/-- The initial `layers_` list built by `assignLayers` on success: for every
layer value `0 .. max_layer`, the keys of `node_layers` (in insertion order)
whose layer equals it. -/
def layersListInit (g : Graph) : List (List ℕ) :=
  (List.range ((runKahn g).maxLayer + 1)).map
    (fun l => (runKahn g).keys.filter (fun v => (runKahn g).layers v = l))

theorem assignLayersResult_eq_some (g : Graph)
    (hp : (runKahn g).processed = g.nodes.length) :
    assignLayersResult g = some ⟨layersListInit g, (runKahn g).layers⟩ := by
  simp only [assignLayersResult, layersListInit]
  rw [if_pos hp]

theorem layersListInit_length (g : Graph) :
    (layersListInit g).length = (runKahn g).maxLayer + 1 := by
  simp [layersListInit]

theorem rangeMap_getD (f : ℕ → List ℕ) (n i : ℕ) (hi : i < n) :
    ((List.range n).map f).getD i [] = f i := by
  rw [List.getD_eq_getElem?_getD, List.getElem?_map, List.getElem?_range hi]
  rfl

theorem mem_layersListInit (g : Graph) (i : ℕ) (hi : i < (runKahn g).maxLayer + 1)
    (v : ℕ) :
    v ∈ (layersListInit g).getD i [] ↔
      v ∈ (runKahn g).keys ∧ (runKahn g).layers v = i := by
  rw [layersListInit, rangeMap_getD _ _ _ hi, List.mem_filter]
  simp

theorem layersListInit_nodup (g : Graph) (HN : g.idsNodup) (HE : g.endpointsExist)
    (i : ℕ) : ((layersListInit g).getD i []).Nodup := by
  obtain ⟨Q, inv, hqe⟩ := runKahn_spec g HN HE
  by_cases hi : i < (runKahn g).maxLayer + 1
  · rw [layersListInit, rangeMap_getD _ _ _ hi]
    exact inv.keysNodup.filter _
  · rw [layersListInit, List.getD_eq_getElem?_getD,
      List.getElem?_eq_none (by simp only [List.length_map, List.length_range]; omega)]
    exact List.nodup_nil

theorem hierApply_success_eq (g : Graph) (cfg : LayoutConfig)
    (h0 : g.nodes.length ≠ 0)
    (hp : (runKahn g).processed = g.nodes.length) :
    (hierApply g cfg).1.success = true ∧
    (hierApply g cfg).2 = assignCoordinates cfg g
      (reduceCrossings g.edges (runKahn g).layers (layersListInit g) cfg) := by
  unfold hierApply
  rw [if_neg h0, assignLayersResult_eq_some g hp]
  exact ⟨rfl, rfl⟩

theorem stepEdge_layers_lt (g : Graph) (f : ℕ → ℕ)
    (hmono : ∀ e ∈ g.edges, f e.src + 1 ≤ f e.dst) (u v : ℕ)
    (h : stepEdge g u v = true) : f u < f v := by
  rw [stepEdge, List.any_eq_true] at h
  obtain ⟨e, he, hp⟩ := h
  rw [Bool.and_eq_true] at hp
  simp only [decide_eq_true_eq] at hp
  have hm := hmono e he
  rw [hp.1, hp.2] at hm
  omega

theorem pathLe_layers_lt (g : Graph) (f : ℕ → ℕ)
    (hmono : ∀ e ∈ g.edges, f e.src + 1 ≤ f e.dst) :
    ∀ (k u v : ℕ), pathLe g k u v = true → f u < f v := by
  intro k
  induction k with
  | zero =>
      intro u v h
      rw [pathLe] at h
      exact Bool.noConfusion h
  | succ k ih =>
      intro u v h
      rw [pathLe, Bool.or_eq_true] at h
      rcases h with hstep | hany
      · exact stepEdge_layers_lt g f hmono u v hstep
      · rw [List.any_eq_true] at hany
        obtain ⟨w, hw, hsp⟩ := hany
        rw [Bool.and_eq_true] at hsp
        have h1 := stepEdge_layers_lt g f hmono u w hsp.1
        have h2 := ih w v hsp.2
        omega

/-- C2 (amended): for a well-formed graph (unique node ids, edge endpoints
existing as nodes) that contains a directed cycle, `apply` fails with the
cycle message, and phases 2 and 3 never run: the graph comes back
untouched.  (As stated the claim is false: edges toward nonexistent node
ids pad the processed count, see the counterexample.) -/
theorem hier_cycle_detected (g : Graph) (cfg : LayoutConfig)
    (HN : g.idsNodup) (HE : g.endpointsExist) (hC : hasCycleBool g = true) :
    (hierApply g cfg).1.success = false ∧
    (hierApply g cfg).1.errorMessage =
      "Graph contains cycles - not suitable for hierarchical layout" ∧
    (hierApply g cfg).2 = g := by
  have hp : (runKahn g).processed ≠ g.nodes.length := by
    intro hp
    have hsucc := runKahn_success g HN HE hp
    rw [hasCycleBool, List.any_eq_true] at hC
    obtain ⟨v, hv, hpath⟩ := hC
    exact absurd (pathLe_layers_lt g (runKahn g).layers hsucc.1 g.nodes.length v v hpath)
      (lt_irrefl _)
  have hnone : assignLayersResult g = none := by
    simp only [assignLayersResult]
    rw [if_neg hp]
  have h0 : g.nodes.length ≠ 0 := fun h => assignLayersResult_empty g h hnone
  unfold hierApply
  rw [if_neg h0, hnone]
  exact ⟨rfl, rfl, rfl⟩

/-- Instantiation of `hier_cycle_detected` at the 3-cycle `1 → 2 → 3 → 1`. -/
theorem hier_cycle_detected_witness :
    (hierApply ⟨[mkNode 1, mkNode 2, mkNode 3], [⟨1, 2⟩, ⟨2, 3⟩, ⟨3, 1⟩]⟩
        defaultConfig).1.success = false :=
  (hier_cycle_detected ⟨[mkNode 1, mkNode 2, mkNode 3], [⟨1, 2⟩, ⟨2, 3⟩, ⟨3, 1⟩]⟩
    defaultConfig (by decide) (by decide) (by decide)).1

/-- The statement of claim C1 as the spec words it: for every acyclic input
whose edge endpoints exist and every config, layers and y coordinates
strictly increase along every edge. -/
def C1ClaimStatement : Prop :=
  ∀ (g : Graph) (cfg : LayoutConfig), g.idsNodup → g.endpointsExist → Acyclic g →
    ∀ e ∈ g.edges,
      (runKahn g).layers e.src < (runKahn g).layers e.dst ∧
      posYOf (hierApply g cfg).2 e.src < posYOf (hierApply g cfg).2 e.dst

theorem reduceCrossingsLoop_two_singletons (e : List Edge) (L : ℕ → ℕ) (n : ℕ) :
    reduceCrossingsLoop e L n [[1], [2]] = [[1], [2]] := by
  cases n with
  | zero => rfl
  | succ n => rfl

/-- C1 counterexample: nothing constrains `layerSpacing` to be nonnegative;
with `layerSpacing = -1000` on the single edge `1 → 2`, node 1 is placed at
y = 50 and node 2 at y = 50 + 30 - 1000 = -920, so the y guarantee fails
even though the layer values do increase. -/
theorem hier_layer_y_claim_false : ¬ C1ClaimStatement := by
  intro h
  have h2 := (h ⟨[mkNode 1, mkNode 2], [⟨1, 2⟩]⟩ { layerSpacing := -1000 }
    (by decide) (by decide) (by decide) ⟨1, 2⟩ (by decide)).2
  have hsnd : (hierApply ⟨[mkNode 1, mkNode 2], [⟨1, 2⟩]⟩
      { layerSpacing := -1000 }).2 =
      assignCoordinates { layerSpacing := -1000 } ⟨[mkNode 1, mkNode 2], [⟨1, 2⟩]⟩
        (reduceCrossingsLoop (⟨[mkNode 1, mkNode 2], [⟨1, 2⟩]⟩ : Graph).edges
          (runKahn ⟨[mkNode 1, mkNode 2], [⟨1, 2⟩]⟩).layers
          (toSizeT ((({ layerSpacing := -1000 } : LayoutConfig)).iterations / 4))
          [[1], [2]]) := rfl
  rw [reduceCrossingsLoop_two_singletons] at hsnd
  rw [hsnd] at h2
  have hy1 : posYOf (assignCoordinates { layerSpacing := -1000 }
      ⟨[mkNode 1, mkNode 2], [⟨1, 2⟩]⟩ [[1], [2]]) 1 = 50 := rfl
  have hmaxh : maxHeightInLayer (placeLayer { layerSpacing := -1000 }
      ⟨[mkNode 1, mkNode 2], [⟨1, 2⟩]⟩
      (({ layerSpacing := -1000 } : LayoutConfig)).marginY [1]) [1] = 30 := by decide
  have hy2 : posYOf (assignCoordinates { layerSpacing := -1000 }
      ⟨[mkNode 1, mkNode 2], [⟨1, 2⟩]⟩ [[1], [2]]) 2 =
      (({ layerSpacing := -1000 } : LayoutConfig)).marginY +
        maxHeightInLayer (placeLayer { layerSpacing := -1000 }
          ⟨[mkNode 1, mkNode 2], [⟨1, 2⟩]⟩
          (({ layerSpacing := -1000 } : LayoutConfig)).marginY [1]) [1] +
        (({ layerSpacing := -1000 } : LayoutConfig)).layerSpacing := rfl
  rw [hy1, hy2, hmaxh] at h2
  norm_num at h2

/-- C1 (amended): for a well-formed acyclic graph, the layer part of the
claim holds for every config, and the y part holds whenever
`layerSpacing ≥ 0` (the claim as stated fails for negative spacing):
`apply` succeeds and along every edge the assigned layer and the assigned
y coordinate strictly increase. -/
theorem hier_layer_y_strict (g : Graph) (cfg : LayoutConfig)
    (HN : g.idsNodup) (HE : g.endpointsExist) (hA : Acyclic g)
    (hLS : 0 ≤ cfg.layerSpacing) :
    (hierApply g cfg).1.success = true ∧
    ∀ e ∈ g.edges,
      (runKahn g).layers e.src < (runKahn g).layers e.dst ∧
      posYOf (hierApply g cfg).2 e.src < posYOf (hierApply g cfg).2 e.dst := by
  by_cases h0 : g.nodes.length = 0
  · constructor
    · unfold hierApply
      rw [if_pos h0]
    · intro e he
      exfalso
      have h1 := (HE e he).1
      have hnil : g.nodes = [] := List.length_eq_zero.mp h0
      rw [Graph.ids, hnil] at h1
      exact absurd h1 (List.not_mem_nil _)
  · have hp := runKahn_complete g HN HE hA
    obtain ⟨hsuc, heq⟩ := hierApply_success_eq g cfg h0 hp
    refine ⟨hsuc, ?_⟩
    intro e he
    have hsucc := runKahn_success g HN HE hp
    have hmono := hsucc.1 e he
    have hP := reduceCrossings_ptwise g.edges (runKahn g).layers (layersListInit g) cfg
    have hlen : (reduceCrossings g.edges (runKahn g).layers (layersListInit g) cfg).length
        = (runKahn g).maxLayer + 1 := by
      rw [← hP.1, layersListInit_length]
    have hnode : ∀ v, v ∈ g.ids →
        v ∈ (reduceCrossings g.edges (runKahn g).layers (layersListInit g) cfg).getD
          ((runKahn g).layers v) [] ∧
        (∀ j, j < (reduceCrossings g.edges (runKahn g).layers
            (layersListInit g) cfg).length →
          j ≠ (runKahn g).layers v →
          v ∉ (reduceCrossings g.edges (runKahn g).layers
            (layersListInit g) cfg).getD j []) ∧
        ((reduceCrossings g.edges (runKahn g).layers (layersListInit g) cfg).getD
          ((runKahn g).layers v) []).Nodup ∧
        (runKahn g).layers v <
          (reduceCrossings g.edges (runKahn g).layers (layersListInit g) cfg).length := by
      intro v hv
      obtain ⟨hkey, hbound⟩ := hsucc.2 v hv
      have hki : (runKahn g).layers v < (runKahn g).maxLayer + 1 := by omega
      refine ⟨?_, ?_, ?_, ?_⟩
      · rw [← (hP.2 ((runKahn g).layers v)).mem_iff,
          mem_layersListInit g _ hki]
        exact ⟨hkey, rfl⟩
      · intro j hj hjne hmem
        rw [← (hP.2 j).mem_iff,
          mem_layersListInit g j (by omega)] at hmem
        exact hjne hmem.2.symm
      · exact ((hP.2 _).nodup_iff).mp (layersListInit_nodup g HN HE _)
      · omega
    obtain ⟨hs1, hs2, hs3, hs4⟩ := hnode e.src (HE e he).1
    obtain ⟨hd1, hd2, hd3, hd4⟩ := hnode e.dst (HE e he).2
    have hysrc := assignCoordinatesGo_posY cfg
      (reduceCrossings g.edges (runKahn g).layers (layersListInit g) cfg) g cfg.marginY
      ((runKahn g).layers e.src) e.src hs4 hs1 hs2 hs3
      (getNode?_isSome_of_mem g e.src (HE e he).1)
    have hydst := assignCoordinatesGo_posY cfg
      (reduceCrossings g.edges (runKahn g).layers (layersListInit g) cfg) g cfg.marginY
      ((runKahn g).layers e.dst) e.dst hd4 hd1 hd2 hd3
      (getNode?_isSome_of_mem g e.dst (HE e he).2)
    refine ⟨by omega, ?_⟩
    rw [heq]
    obtain ⟨nds, hnds, hvs⟩ := Option.map_eq_some'.mp hysrc
    obtain ⟨ndd, hndd, hvd⟩ := Option.map_eq_some'.mp hydst
    have hstrict := yOffset_strict cfg g hLS
      (reduceCrossings g.edges (runKahn g).layers (layersListInit g) cfg)
      ((runKahn g).layers e.src) ((runKahn g).layers e.dst) (by omega) hd4
    unfold assignCoordinates
    rw [posYOf_eq_of_getNode _ _ _ hnds, posYOf_eq_of_getNode _ _ _ hndd, hvs, hvd]
    linarith

/-- Instantiation of `hier_layer_y_strict` at the chain `1 → 2 → 3` with
the default configuration. -/
theorem hier_layer_y_strict_witness :
    0 ≤ defaultConfig.layerSpacing ∧
    (hierApply ⟨[mkNode 1, mkNode 2, mkNode 3], [⟨1, 2⟩, ⟨2, 3⟩]⟩
        defaultConfig).1.success = true :=
  ⟨by decide,
    (hier_layer_y_strict ⟨[mkNode 1, mkNode 2, mkNode 3], [⟨1, 2⟩, ⟨2, 3⟩]⟩
      defaultConfig (by decide) (by decide) (by decide) (by decide)).1⟩

/-! ### ForceDirectedLayout (`ForceDirectedLayout.hpp`)

The algorithm is parametrized by `sq`, the (deterministic) double `std::sqrt`,
and by `rnd`, the sequence of values the `uniform_real_distribution` calls
return, consumed left to right (the distribution parameters — the
`marginX/marginY + 400` windows and the `±min_separation` window — only
shape which values the abstract stream can take, and no claim depends on
them).  The force map `forces` holds exactly the node ids, inserted in node
container order; it is modelled as a total function that is zero
elsewhere (those entries are never read). -/

/-- `ForceVector::magnitude` / `Point::magnitude`. -/
def magQ (sq : ℚ → ℚ) (p : Pt) : ℚ := sq (p.x * p.x + p.y * p.y)

/-- `ForceVector::normalized` / `Point::normalized`. -/
def normQ (sq : ℚ → ℚ) (p : Pt) : Pt :=
  if magQ sq p = 0 then ⟨0, 0⟩ else ⟨p.x / magQ sq p, p.y / magQ sq p⟩

/-- `Node::center`. -/
def nodeCenter (nd : Node) : Pt :=
  ⟨nd.position.x + nd.size.x / 2, nd.position.y + nd.size.y / 2⟩

/-- `forces[id] = forces[id] + f`. -/
def addForce (F : ℕ → Pt) (i : ℕ) (p : Pt) : ℕ → Pt :=
  Function.update F i ⟨(F i).x + p.x, (F i).y + p.y⟩

/-- One pair of `calculateRepulsiveForces` (`k_repulsive = oel²`; applied
only for distinct centers within range `3·oel`; the opposite force is
`force * -1`). -/
def repulsePair (sq : ℚ → ℚ) (oel : ℚ) (n1 n2 : Node) (F : ℕ → Pt) : ℕ → Pt :=
  let delta : Pt := ⟨(nodeCenter n1).x - (nodeCenter n2).x,
                     (nodeCenter n1).y - (nodeCenter n2).y⟩
  let dist := magQ sq delta
  if 0 < dist ∧ dist < oel * 3 then
    let fm := oel * oel / (dist * dist)
    let dir := normQ sq delta
    addForce (addForce F n1.id ⟨dir.x * fm, dir.y * fm⟩) n2.id
      ⟨dir.x * fm * (-1), dir.y * fm * (-1)⟩
  else F

/-- `calculateRepulsiveForces`: the `it2 = next(it1)` double loop over the
node container. -/
def repulsiveGo (sq : ℚ → ℚ) (oel : ℚ) : List Node → (ℕ → Pt) → (ℕ → Pt)
  | [], F => F
  | n1 :: rest, F =>
      repulsiveGo sq oel rest (rest.foldl (fun F2 n2 => repulsePair sq oel n1 n2 F2) F)

/-- One edge of `calculateAttractiveForces` (edges with a missing endpoint
are skipped before the force map is touched). -/
def attractEdge (sq : ℚ → ℚ) (oel : ℚ) (g : Graph) (F : ℕ → Pt) (e : Edge) :
    ℕ → Pt :=
  match getNode? g e.src, getNode? g e.dst with
  | some n1, some n2 =>
      let delta : Pt := ⟨(nodeCenter n2).x - (nodeCenter n1).x,
                         (nodeCenter n2).y - (nodeCenter n1).y⟩
      let dist := magQ sq delta
      if 0 < dist then
        let fm := dist * dist / oel
        let dir := normQ sq delta
        addForce (addForce F e.src ⟨dir.x * fm, dir.y * fm⟩) e.dst
          ⟨dir.x * fm * (-1), dir.y * fm * (-1)⟩
      else F
  | _, _ => F

/-- One round's force computation: zero-initialized forces, all repulsive
pairs, then all attractive edges. -/
def computeForces (sq : ℚ → ℚ) (g : Graph) (oel : ℚ) : ℕ → Pt :=
  g.edges.foldl (attractEdge sq oel g) (repulsiveGo sq oel g.nodes (fun _ => ⟨0, 0⟩))

/-- `applyForces`: iterate the force map (keys in node order), cap each
displacement magnitude by the temperature, move the node when it is
positive, and return the maximal displacement applied. -/
def applyForcesGo (sq : ℚ → ℚ) (F : ℕ → Pt) (temp : ℚ) :
    List ℕ → Graph → ℚ → Graph × ℚ
  | [], g, md => (g, md)
  | v :: rest, g, md =>
      match getNode? g v with
      | none => applyForcesGo sq F temp rest g md
      | some nd =>
          let dm := min (magQ sq (F v)) temp
          if 0 < dm then
            let dir := normQ sq (F v)
            applyForcesGo sq F temp rest
              (updateNodePosition g v
                ⟨nd.position.x + dir.x * dm, nd.position.y + dir.y * dm⟩)
              (max md dm)
          else applyForcesGo sq F temp rest g md

/-- `simulateForces`: up to `static_cast<size_t>(config.iterations)` rounds,
temperature cooled by `0.95` with floor `1.0`, early exit when the maximal
displacement drops below the convergence threshold.  Returns the final
graph, the C++ `iteration` counter as returned (second component), and, as
a ghost for stating C7, the number of rounds whose body actually ran (third
component): a round that breaks is executed but not counted by `iteration`,
whose `++` is skipped by the `break`. -/
def simLoop (sq : ℚ → ℚ) (cfg : LayoutConfig) (oel : ℚ) :
    ℕ → Graph → ℚ → Graph × ℕ × ℕ
  | 0, g, _ => (g, 0, 0)
  | n + 1, g, temp =>
      let ap := applyForcesGo sq (computeForces sq g oel) temp g.ids g 0
      if ap.2 < cfg.convergenceThreshold then (ap.1, 0, 1)
      else
        let r := simLoop sq cfg oel n ap.1 (max 1 (temp * (95 / 100)))
        (r.1, r.2.1 + 1, r.2.2 + 1)

/-- `initializePositions`: a node sitting exactly at the origin gets two
fresh draws (`dist_x(rng_)`, then `dist_y(rng_)`) as its new position. -/
def initPositionsGo (rnd : ℕ → ℚ) : List ℕ → Graph → ℕ → Graph × ℕ
  | [], g, k => (g, k)
  | v :: rest, g, k =>
      match getNode? g v with
      | none => initPositionsGo rnd rest g k
      | some nd =>
          if nd.position.x = 0 ∧ nd.position.y = 0 then
            initPositionsGo rnd rest
              (updateNodePosition g v ⟨rnd k, rnd (k + 1)⟩) (k + 2)
          else initPositionsGo rnd rest g k

/-- `calculateOptimalEdgeLength`. -/
def calculateOptimalEdgeLength (sq : ℚ → ℚ) (g : Graph) (cfg : LayoutConfig) : ℚ :=
  if g.nodes.length ≤ 1 then cfg.nodeSpacing
  else
    max cfg.nodeSpacing
      (sq ((g.nodes.length : ℚ) * cfg.nodeSpacing * cfg.nodeSpacing) /
        sq ((g.nodes.length : ℚ)))

/-- `separateNodes`: push an overlapping pair apart along the line joining
their centers; coincident centers draw a random direction (two draws). -/
def separateNodes (sq : ℚ → ℚ) (rnd : ℕ → ℚ) (g : Graph) (id1 id2 : ℕ)
    (minSep : ℚ) (k : ℕ) : Graph × ℕ :=
  match getNode? g id1, getNode? g id2 with
  | some n1, some n2 =>
      let delta0 : Pt := ⟨(nodeCenter n1).x - (nodeCenter n2).x,
                          (nodeCenter n1).y - (nodeCenter n2).y⟩
      let dk : Pt × ℕ :=
        if magQ sq delta0 = 0 then (⟨rnd k, rnd (k + 1)⟩, k + 2) else (delta0, k)
      if 0 < magQ sq dk.1 then
        let sd := ((n1.size.x + n2.size.x) / 2 + minSep - magQ sq dk.1) / 2
        let dir := normQ sq dk.1
        (updateNodePosition
          (updateNodePosition g id1
            ⟨n1.position.x + dir.x * sd, n1.position.y + dir.y * sd⟩)
          id2 ⟨n2.position.x - dir.x * sd, n2.position.y - dir.y * sd⟩, dk.2)
      else (g, dk.2)
  | _, _ => (g, k)

/-- Inner `it2` loop of one `removeOverlaps` pass (reads the live graph;
`nodesOverlap` is the same formula as the utils version). -/
def overlapInner (sq : ℚ → ℚ) (rnd : ℕ → ℚ) (minSep : ℚ) (v : ℕ) :
    List ℕ → Graph → ℕ → Bool → Graph × ℕ × Bool
  | [], g, k, had => (g, k, had)
  | w :: rest, g, k, had =>
      match getNode? g v, getNode? g w with
      | some n1, some n2 =>
          if nodesOverlap n1 n2 minSep then
            let r := separateNodes sq rnd g v w minSep k
            overlapInner sq rnd minSep v rest r.1 r.2 true
          else overlapInner sq rnd minSep v rest g k had
      | _, _ => overlapInner sq rnd minSep v rest g k had

/-- Outer `it1` loop of one `removeOverlaps` pass. -/
def overlapPass (sq : ℚ → ℚ) (rnd : ℕ → ℚ) (minSep : ℚ) :
    List ℕ → Graph → ℕ → Bool → Graph × ℕ × Bool
  | [], g, k, had => (g, k, had)
  | v :: rest, g, k, had =>
      let r := overlapInner sq rnd minSep v rest g k had
      overlapPass sq rnd minSep rest r.1 r.2.1 r.2.2

/-- `removeOverlaps`: up to 10 passes, stopping after an overlap-free one
(`min_separation = nodeSpacing · 0.5`; position updates never change the
key set, so the id list is fixed across passes). -/
def removeOverlapsLoop (sq : ℚ → ℚ) (rnd : ℕ → ℚ) (minSep : ℚ) (ids : List ℕ) :
    ℕ → Graph → ℕ → Graph × ℕ
  | 0, g, k => (g, k)
  | n + 1, g, k =>
      let p := overlapPass sq rnd minSep ids g k false
      if p.2.2 then removeOverlapsLoop sq rnd minSep ids n p.1 p.2.1 else (p.1, p.2.1)

/-- Model of `ForceDirectedLayout::apply` (no statement on this path throws,
so the `catch` branch is dead code).  The internal `calculateBoundingBox` of
ForceDirectedLayout.hpp coincides with the guarded utils version. -/
def fdApply (sq : ℚ → ℚ) (rnd : ℕ → ℚ) (g : Graph) (cfg : LayoutConfig) :
    LayoutResult × Graph :=
  if g.nodes.length = 0 then ({ defaultResult with success := true }, g)
  else
    let ip := initPositionsGo rnd g.ids g 0
    let oel := calculateOptimalEdgeLength sq ip.1 cfg
    let sim := simLoop sq cfg oel (toSizeT cfg.iterations) ip.1 oel
    let ro := removeOverlapsLoop sq rnd (cfg.nodeSpacing * (1 / 2)) sim.1.ids
      10 sim.1 ip.2
    ({ defaultResult with
        success := true
        iterations := sim.2.1
        boundingBox := calculateBoundingBox ro.1 }, ro.1)

/-- Ghost observer for C7: the number of simulation rounds whose body ran
(`0` when `apply` returns early on the empty graph). -/
def fdSimRounds (sq : ℚ → ℚ) (rnd : ℕ → ℚ) (g : Graph) (cfg : LayoutConfig) : ℕ :=
  if g.nodes.length = 0 then 0
  else
    let ip := initPositionsGo rnd g.ids g 0
    let oel := calculateOptimalEdgeLength sq ip.1 cfg
    (simLoop sq cfg oel (toSizeT cfg.iterations) ip.1 oel).2.2

theorem simLoop_counter_spec (sq : ℚ → ℚ) (cfg : LayoutConfig) (oel : ℚ) :
    ∀ (n : ℕ) (g : Graph) (temp : ℚ),
      (simLoop sq cfg oel n g temp).2.1 ≤ n ∧
      ((simLoop sq cfg oel n g temp).2.1 = (simLoop sq cfg oel n g temp).2.2 ∨
        (simLoop sq cfg oel n g temp).2.1 + 1 = (simLoop sq cfg oel n g temp).2.2) := by
  intro n
  induction n with
  | zero => intro g temp; exact ⟨Nat.le_refl 0, Or.inl rfl⟩
  | succ n ih =>
      intro g temp
      have hstep : simLoop sq cfg oel (n + 1) g temp =
          (if (applyForcesGo sq (computeForces sq g oel) temp g.ids g 0).2 <
              cfg.convergenceThreshold then
            ((applyForcesGo sq (computeForces sq g oel) temp g.ids g 0).1, 0, 1)
          else
            ((simLoop sq cfg oel n
                (applyForcesGo sq (computeForces sq g oel) temp g.ids g 0).1
                (max 1 (temp * (95 / 100)))).1,
              (simLoop sq cfg oel n
                (applyForcesGo sq (computeForces sq g oel) temp g.ids g 0).1
                (max 1 (temp * (95 / 100)))).2.1 + 1,
              (simLoop sq cfg oel n
                (applyForcesGo sq (computeForces sq g oel) temp g.ids g 0).1
                (max 1 (temp * (95 / 100)))).2.2 + 1)) := rfl
      rw [hstep]
      by_cases hc : (applyForcesGo sq (computeForces sq g oel) temp g.ids g 0).2 <
          cfg.convergenceThreshold
      · rw [if_pos hc]
        dsimp only
        omega
      · rw [if_neg hc]
        dsimp only
        have h2 := ih (applyForcesGo sq (computeForces sq g oel) temp g.ids g 0).1
          (max 1 (temp * (95 / 100)))
        omega

/-- The statement of claim C7 as the spec words it: the reported
`iterations` equals the number of rounds actually executed, and is at most
`config.iterations`. -/
def C7ClaimStatement : Prop :=
  ∀ (sq : ℚ → ℚ) (rnd : ℕ → ℚ) (g : Graph) (cfg : LayoutConfig),
    (fdApply sq rnd g cfg).1.iterations = fdSimRounds sq rnd g cfg ∧
    ((fdApply sq rnd g cfg).1.iterations : ℚ) ≤ cfg.iterations

/-- C7 counterexample: `return iteration` runs before the `++iteration` of
the round that triggers the convergence break, so a converging round is
executed but not counted.  A single node away from the origin feels no
force: round 1 moves nothing, `max_displacement = 0 < 1` breaks, one round
ran, yet `result.iterations = 0`. -/
theorem fd_iterations_claim_false : ¬ C7ClaimStatement := by
  intro h
  have h1 := (h (fun _ => 0) (fun _ => 0) ⟨[⟨1, ⟨10, 10⟩, ⟨50, 30⟩⟩], []⟩
    defaultConfig).1
  have h2 : (fdApply (fun _ => 0) (fun _ => 0) ⟨[⟨1, ⟨10, 10⟩, ⟨50, 30⟩⟩], []⟩
      defaultConfig).1.iterations = 0 := rfl
  have h3 : fdSimRounds (fun _ => 0) (fun _ => 0) ⟨[⟨1, ⟨10, 10⟩, ⟨50, 30⟩⟩], []⟩
      defaultConfig = 1 := rfl
  rw [h2, h3] at h1
  exact absurd h1 (by decide)

/-- C7 (amended): the reported `iterations` is at most
`static_cast<size_t>(config.iterations)` (hence at most `config.iterations`
when the latter is nonnegative), and it equals the number of rounds
actually executed except when a round triggers the convergence break, where
it undercounts by exactly one. -/
theorem fd_iterations_bound (sq : ℚ → ℚ) (rnd : ℕ → ℚ) (g : Graph)
    (cfg : LayoutConfig) :
    (fdApply sq rnd g cfg).1.iterations ≤ toSizeT cfg.iterations ∧
    ((fdApply sq rnd g cfg).1.iterations = fdSimRounds sq rnd g cfg ∨
      (fdApply sq rnd g cfg).1.iterations + 1 = fdSimRounds sq rnd g cfg) ∧
    (0 ≤ cfg.iterations →
      ((fdApply sq rnd g cfg).1.iterations : ℚ) ≤ cfg.iterations) := by
  have hkey : (fdApply sq rnd g cfg).1.iterations ≤ toSizeT cfg.iterations ∧
      ((fdApply sq rnd g cfg).1.iterations = fdSimRounds sq rnd g cfg ∨
        (fdApply sq rnd g cfg).1.iterations + 1 = fdSimRounds sq rnd g cfg) := by
    by_cases h0 : g.nodes.length = 0
    · have h1 : fdApply sq rnd g cfg = ({ defaultResult with success := true }, g) := by
        unfold fdApply
        rw [if_pos h0]
      have h2 : fdSimRounds sq rnd g cfg = 0 := by
        unfold fdSimRounds
        rw [if_pos h0]
      rw [h1, h2]
      exact ⟨Nat.zero_le _, Or.inl rfl⟩
    · have h1 : (fdApply sq rnd g cfg).1.iterations =
          (simLoop sq cfg
            (calculateOptimalEdgeLength sq (initPositionsGo rnd g.ids g 0).1 cfg)
            (toSizeT cfg.iterations) (initPositionsGo rnd g.ids g 0).1
            (calculateOptimalEdgeLength sq (initPositionsGo rnd g.ids g 0).1 cfg)).2.1 := by
        unfold fdApply
        rw [if_neg h0]
      have h2 : fdSimRounds sq rnd g cfg =
          (simLoop sq cfg
            (calculateOptimalEdgeLength sq (initPositionsGo rnd g.ids g 0).1 cfg)
            (toSizeT cfg.iterations) (initPositionsGo rnd g.ids g 0).1
            (calculateOptimalEdgeLength sq (initPositionsGo rnd g.ids g 0).1 cfg)).2.2 := by
        unfold fdSimRounds
        rw [if_neg h0]
      rw [h1, h2]
      exact simLoop_counter_spec sq cfg
        (calculateOptimalEdgeLength sq (initPositionsGo rnd g.ids g 0).1 cfg)
        (toSizeT cfg.iterations) (initPositionsGo rnd g.ids g 0).1
        (calculateOptimalEdgeLength sq (initPositionsGo rnd g.ids g 0).1 cfg)
  refine ⟨hkey.1, hkey.2, ?_⟩
  intro hpos
  have hfl : (0 : ℤ) ≤ cfg.iterations.floor := by
    rw [Rat.le_floor]
    exact_mod_cast hpos
  have h3 : ((cfg.iterations.floor.toNat : ℤ) : ℚ) ≤ cfg.iterations := by
    rw [Int.toNat_of_nonneg hfl]
    exact Rat.le_floor.mp (le_refl _)
  have h4 : ((fdApply sq rnd g cfg).1.iterations : ℚ) ≤ (toSizeT cfg.iterations : ℚ) := by
    exact_mod_cast hkey.1
  have h5 : ((toSizeT cfg.iterations : ℕ) : ℚ) ≤ cfg.iterations := by
    unfold toSizeT
    exact_mod_cast h3
  linarith

/-- Instantiation of `fd_iterations_bound` at a single off-origin node with
the default configuration. -/
theorem fd_iterations_bound_witness :
    ((fdApply (fun _ => 0) (fun _ => 0) ⟨[⟨1, ⟨10, 10⟩, ⟨50, 30⟩⟩], []⟩
        defaultConfig).1.iterations : ℚ) ≤ defaultConfig.iterations :=
  (fd_iterations_bound (fun _ => 0) (fun _ => 0) ⟨[⟨1, ⟨10, 10⟩, ⟨50, 30⟩⟩], []⟩
    defaultConfig).2.2 (by decide)

end FGL
